import Mathlib

/-!
Verification of the multiplayer room engine of the wordmaster backend
(`src/services/cache.service.ts`, class `MultiplayerService`, together with
the game-start handler of `src/websocket/server.ts` and the letter service of
`src/services/game-stats.service.ts`).

The embedding is shallow and executable:

* JavaScript `Map`s (`room.players`, `round.submissions`, the NodeCache
  registry) preserve insertion order; they are modelled as association lists
  where `set` updates in place when the key is present and appends otherwise,
  exactly as `Map.prototype.set` behaves.
* The NodeCache used by `MultiplayerService` is constructed with default
  `useClones: true`, so a handler that returns early without calling
  `cache.set` leaves the stored room untouched.  Operations are therefore
  modelled as pure functions `Room -> Except Err Room`: an `Except.error`
  result leaves the store unchanged, an `Except.ok` result replaces it.
* Randomness (`Math.random`) is modelled by explicit parameters: an index
  stream for join-code characters, a shuffling function for letters and
  categories, and a per-round draw for the category count.
* External collaborators (the letter-category cache read by
  `getValidCategoriesForLetter`, the asynchronous answer validator called by
  `submitAnswers`) are passed in as parameters; persistence and broadcasts
  are fire-and-forget in the source and have no effect on room state, so
  they are omitted.
* Timestamps (`Date.now()`) are passed in as explicit `now : Nat` values.
-/

namespace WordMaster

/-- The five room phases of `GamePhase` in `shared/types/word.types.ts`. -/
inductive Phase where
  | waiting
  | starting
  | playing
  | round_end
  | finished
deriving DecidableEq, Repr

/-- `PlayerRole` from `shared/types/word.types.ts`. -/
inductive Role where
  | host
  | player
deriving DecidableEq, Repr

/-- `PlayerStatus` from `shared/types/word.types.ts`. -/
inductive PlayerStatus where
  | active
  | disconnected
  | left
deriving DecidableEq, Repr

/-- The error codes the multiplayer service returns (`MESSAGE_KEYS`). -/
inductive Err where
  | NOT_FOUND
  | UNAUTHORIZED
  | BAD_REQUEST
  | VALIDATION_FAILED
  | INTERNAL_SERVER_ERROR
deriving DecidableEq, Repr

/-- One entry of `GameRoomPlayer.answers`. -/
structure PlayerAnswer where
  roundNumber : Nat
  letter : Char
  word : String
  category : String
  timeLeft : Int
  score : Int
  valid : Bool
deriving DecidableEq, Repr

/-- `GameRoomPlayer` from `shared/types/word.types.ts` (the transient
`socketId` transport handle is omitted; it never influences the room state
machine). -/
structure Player where
  userId : Option String
  username : String
  avatar : String
  role : Role
  isGuest : Bool
  status : PlayerStatus
  currentScore : Int
  answers : List PlayerAnswer
  joinedAt : Nat
  lastActivity : Nat
deriving DecidableEq, Repr

/-- One category of a round. -/
structure RoundCategory where
  name : String
  displayName : String
  timeLimit : Nat
deriving DecidableEq, Repr

/-- `GameRoomRound`.  `submissions : Map<string, boolean>` is only ever
written with value `true` on a key that is absent, so it is modelled as the
insertion-ordered list of usernames that have submitted.  The `endedAt`
field appears in the repository documentation of this type but is absent
from `shared/types/word.types.ts` and never assigned anywhere in the code;
it is carried here as an `Option` so that its absence is observable. -/
structure Round where
  roundNumber : Nat
  letter : Char
  categories : List RoundCategory
  submissions : List String
  startedAt : Option Nat
  endedAt : Option Nat
deriving DecidableEq, Repr

/-- `GameRoomConfig`.  `roundsCount` is a JS number validated with
`< 1 || > 10`; it is modelled as `Int` so that out-of-range inputs exist. -/
structure Config where
  roundsCount : Int
  supportedCategories : List String
  excludedLetters : List Char
deriving DecidableEq, Repr

/-- A chat message (the uuid `messageId` and the `userId` fallback are
omitted; they never influence eviction or ordering). -/
structure ChatMessage where
  username : String
  message : String
  timestamp : Nat
deriving DecidableEq, Repr

/-- `GameRoom.winner`. -/
structure Winner where
  userId : String
  username : String
  score : Int
deriving DecidableEq, Repr

/-- `GameRoom` from `shared/types/word.types.ts`.  `players` is the
insertion-ordered association list standing for `Map<string,
GameRoomPlayer>`, keyed by `Player.username`. -/
structure Room where
  roomId : String
  joinCode : String
  hostId : String
  phase : Phase
  players : List Player
  maxPlayers : Nat
  currentRound : Nat
  totalRounds : Int
  rounds : List Round
  config : Config
  chatMessages : List ChatMessage
  createdAt : Nat
  startedAt : Option Nat
  lastActivity : Nat
  winner : Option Winner
deriving DecidableEq, Repr

/-- `room.players.get(username)`. -/
def playersGet (ps : List Player) (u : String) : Option Player :=
  ps.find? (fun p => p.username == u)

/-- `room.players.has(username)` (the body of `validatePlayerInRoom`). -/
def playersHas (ps : List Player) (u : String) : Bool :=
  (playersGet ps u).isSome

/-- `room.players.set(username, p)`: update in place when the key exists,
append otherwise, as `Map.prototype.set` does. -/
def playersSet (u : String) (p : Player) : List Player → List Player
  | [] => [p]
  | q :: qs => if q.username == u then p :: qs else q :: playersSet u p qs

/-- `room.players.delete(username)`.  `Map.delete` removes the unique entry
with that key; since keys are never duplicated this equals filtering. -/
def playersDelete (ps : List Player) (u : String) : List Player :=
  ps.filter (fun p => !(p.username == u))

/-- The usernames (map keys) of a player list. -/
def usernames (ps : List Player) : List String :=
  ps.map Player.username

/-- `round.submissions.has(username)`. -/
def subsHas (s : List String) (u : String) : Bool :=
  s.contains u

/-- `round.submissions.set(username, true)`. -/
def subsSet (s : List String) (u : String) : List String :=
  if s.contains u then s else s ++ [u]

/-- `list[i] = f(list[i])` on a JS array, leaving other entries alone. -/
def listModify (f : α → α) : Nat → List α → List α
  | _, [] => []
  | 0, a :: as => f a :: as
  | n + 1, a :: as => a :: listModify f n as

/-! ## Join codes (`generateJoinCode`, `generateUniqueJoinCode`) -/

/-- The 32-symbol join-code alphabet (no I, O, 0, 1). -/
def joinCodeChars : List Char :=
  "ABCDEFGHJKLMNPQRSTUVWXYZ23456789".toList

/-- `generateJoinCode`: six characters indexed by
`Math.floor(Math.random() * 32)`.  The random draws are modelled by the
stream `randIdx`; `% 32` reflects that the floored draw always lies in
`0..31`.  `attempt` separates the draws of successive generation attempts. -/
def generateJoinCode (randIdx : Nat → Nat) (attempt : Nat) : String :=
  String.mk ((List.range 6).map (fun i =>
    joinCodeChars.getD (randIdx (attempt * 6 + i) % 32) 'A'))

/-- The retry loop of `generateUniqueJoinCode`: regenerate while the code
collides with an active `code:` key and fewer than `maxAttempts = 10`
retries have been made; once `attempts >= maxAttempts` the function throws
(`Failed to generate unique join code`), which the caller `createRoom`
catches and turns into `INTERNAL_SERVER_ERROR`.  The loop is driven by the
structurally decreasing `fuel = 10 - attempts`; the fuel-zero fallback
inside the guarded branch is unreachable from the real entry point. -/
def generateUniqueJoinCodeLoop (occupied : String → Bool) (randIdx : Nat → Nat) :
    String → Nat → Nat → Except Err String
  | code, attempts, fuel =>
    if occupied code ∧ attempts < 10 then
      match fuel with
      | 0 => Except.error Err.INTERNAL_SERVER_ERROR
      | fuel' + 1 =>
        generateUniqueJoinCodeLoop occupied randIdx
          (generateJoinCode randIdx (attempts + 1)) (attempts + 1) fuel'
    else if 10 ≤ attempts then
      Except.error Err.INTERNAL_SERVER_ERROR
    else
      Except.ok code

/-- `generateUniqueJoinCode`. -/
def generateUniqueJoinCode (occupied : String → Bool) (randIdx : Nat → Nat) :
    Except Err String :=
  generateUniqueJoinCodeLoop occupied randIdx (generateJoinCode randIdx 0) 0 10

/-! ## Round generation (`generateRounds` and the letter service) -/

/-- The letter-category cache consumed by
`letterService.getAvailableCategoriesForLetter`: for each letter, the list
of categories that have words for it (an absent cache entry is the empty
list).  It is an external collaborator and therefore a parameter. -/
def Oracle : Type := Char → List String

/-- `letterService.getValidCategoriesForLetter` from
`game-stats.service.ts`: intersect the cached categories for the letter
with the caller's supported categories and return `[]` when fewer than
`minCategories` remain. -/
def getValidCategoriesForLetter (oracle : Oracle) (letter : Char)
    (supported : List String) (minCategories : Nat) : List String :=
  let availableCategories := oracle letter.toUpper
  let valid := availableCategories.filter (fun c => supported.contains c)
  if valid.length < minCategories then [] else valid

/-- A letter is selected by `generateRounds` when it has at least 3 valid
categories. -/
def letterAdmissible (oracle : Oracle) (supported : List String) (c : Char) : Bool :=
  decide (3 ≤ (getValidCategoriesForLetter oracle c supported 3).length)

/-- The letter-selection loop of `generateRounds`: walk the shuffled
letters, collect admissible ones, stop once `roundsCount` are gathered. -/
def selectLettersGo (admissible : Char → Bool) (n : Nat) (acc : List Char) :
    List Char → List Char
  | [] => acc
  | c :: cs =>
    if n ≤ acc.length then acc
    else if admissible c then selectLettersGo admissible n (acc ++ [c]) cs
    else selectLettersGo admissible n acc cs

/-- The A..Z alphabet used by `generateRounds`. -/
def alphabet : List Char :=
  "ABCDEFGHIJKLMNOPQRSTUVWXYZ".toList

/-- The sources of randomness inside `generateRounds`. -/
structure Rand where
  /-- the random shuffle of the candidate letters -/
  shuffleLetters : List Char → List Char
  /-- per-round draw modelling `Math.floor(Math.random() * 3)` -/
  catCountDraw : Nat → Nat
  /-- per-round random shuffle of the valid categories -/
  shuffleCats : Nat → List String → List String

/-- `cat.charAt(0).toUpperCase() + cat.slice(1)`. -/
def capitalizeFirst (s : String) : String :=
  match s.toList with
  | [] => ""
  | c :: cs => String.mk (c.toUpper :: cs)

/-- The category record built for each round (fixed 30-second limit). -/
def mkRoundCategory (cat : String) : RoundCategory :=
  { name := cat, displayName := capitalizeFirst cat, timeLimit := 30 }

/-- Round `i` (0-based) of `generateRounds` for a selected letter:
`categoryCount = Math.floor(Math.random() * 3) + 3` categories, capped by
how many valid categories the letter has. -/
def mkGeneratedRound (oracle : Oracle) (rand : Rand) (config : Config)
    (i : Nat) (letter : Char) : Round :=
  let validCategories :=
    getValidCategoriesForLetter oracle letter config.supportedCategories 3
  let categoryCount := rand.catCountDraw i % 3 + 3
  let shuffledCategories := rand.shuffleCats i validCategories
  let roundCategories :=
    shuffledCategories.take (min categoryCount validCategories.length)
  { roundNumber := i + 1
    letter := letter
    categories := roundCategories.map mkRoundCategory
    submissions := []
    startedAt := none
    endedAt := none }

/-- `MultiplayerService.generateRounds`. -/
def generateRounds (oracle : Oracle) (rand : Rand) (config : Config) :
    List Round :=
  let availableLetters :=
    alphabet.filter (fun c => !(config.excludedLetters.contains c))
  let shuffledLetters := rand.shuffleLetters availableLetters
  let selectedLetters :=
    selectLettersGo (letterAdmissible oracle config.supportedCategories)
      config.roundsCount.toNat [] shuffledLetters
  selectedLetters.enum.map (fun ic => mkGeneratedRound oracle rand config ic.1 ic.2)

/-! ## Room operations -/

/-- The default config installed by `createRoom`. -/
def defaultConfig : Config :=
  { roundsCount := 4
    supportedCategories := ["name", "place", "animal", "food"]
    excludedLetters := [] }

/-- The host player record built by `createRoom`. -/
def mkHostPlayer (username avatar : String) (now : Nat) : Player :=
  { userId := none, username := username, avatar := avatar, role := Role.host
    isGuest := true, status := PlayerStatus.active, currentScore := 0
    answers := [], joinedAt := now, lastActivity := now }

/-- The room built by `createRoom` (id and join code already drawn). -/
def createRoomRoom (roomId joinCode username avatar : String) (now : Nat) : Room :=
  { roomId := roomId, joinCode := joinCode, hostId := username
    phase := Phase.waiting, players := [mkHostPlayer username avatar now]
    maxPlayers := 8, currentRound := 0, totalRounds := 4, rounds := []
    config := defaultConfig, chatMessages := [], createdAt := now
    startedAt := none, lastActivity := now, winner := none }

/-- The player record built by `joinRoom` for a joining guest. -/
def mkJoinPlayer (username avatar : String) (now : Nat) : Player :=
  { userId := none, username := username, avatar := avatar, role := Role.player
    isGuest := true, status := PlayerStatus.active, currentScore := 0
    answers := [], joinedAt := now, lastActivity := now }

/-- `joinRoom`, after the room has been resolved from its join code:
waiting-phase and capacity guards, then `players.set` (the code performs no
duplicate-username check, so an existing entry is overwritten). -/
def joinRoomRoom (room : Room) (username avatar : String) (now : Nat) :
    Except Err Room :=
  if room.phase ≠ Phase.waiting then Except.error Err.BAD_REQUEST
  else if room.maxPlayers ≤ room.players.length then Except.error Err.BAD_REQUEST
  else
    Except.ok { room with
      players := playersSet username (mkJoinPlayer username avatar now) room.players
      lastActivity := now }

/-- `leaveRoom` on a resolved room.  `Except.ok none` is the branch that
deletes the room (host left with nobody remaining); the registry-level
wrapper below removes both cache keys in that case. -/
def leaveRoomRoom (room : Room) (username : String) (now : Nat) :
    Except Err (Option Room) :=
  match playersGet room.players username with
  | none => Except.error Err.NOT_FOUND
  | some _ =>
    let players' := playersDelete room.players username
    if room.hostId = username then
      match players' with
      | [] => Except.ok none
      | p :: rest =>
        Except.ok (some { room with
          players := { p with role := Role.host } :: rest
          hostId := p.username
          lastActivity := now })
    else
      Except.ok (some { room with players := players', lastActivity := now })

/-- `rejoinRoom` on a resolved room: the username must already be a player;
status is reset to active and the avatar replaced when supplied. -/
def rejoinRoomRoom (room : Room) (username : String) (avatar : Option String)
    (now : Nat) : Except Err Room :=
  match playersGet room.players username with
  | none => Except.error Err.NOT_FOUND
  | some p =>
    let p' := { p with
      status := PlayerStatus.active
      lastActivity := now
      avatar := avatar.getD p.avatar }
    Except.ok { room with
      players := playersSet username p' room.players
      lastActivity := now }

/-- `sendChatMessage`: membership gate, 1..200-character length check,
append, then drop the oldest message when the history exceeds 50. -/
def sendChatMessageRoom (room : Room) (username message : String) (now : Nat) :
    Except Err (Room × ChatMessage) :=
  if !(playersHas room.players username) then Except.error Err.UNAUTHORIZED
  else
    match playersGet room.players username with
    | none => Except.error Err.NOT_FOUND
    | some _ =>
      if message.length = 0 ∨ 200 < message.length then
        Except.error Err.VALIDATION_FAILED
      else
        let msg : ChatMessage :=
          { username := username, message := message, timestamp := now }
        let msgs := room.chatMessages ++ [msg]
        let msgs' := if 50 < msgs.length then msgs.tail else msgs
        Except.ok ({ room with chatMessages := msgs', lastActivity := now }, msg)

/-- `updateConfig`: membership, host, waiting-phase, `roundsCount` in 1..10
and non-empty categories, in the order the code checks them. -/
def updateConfigRoom (room : Room) (username : String) (cfg : Config)
    (now : Nat) : Except Err Room :=
  if !(playersHas room.players username) then Except.error Err.UNAUTHORIZED
  else if room.hostId ≠ username then Except.error Err.UNAUTHORIZED
  else if room.phase ≠ Phase.waiting then Except.error Err.BAD_REQUEST
  else if cfg.roundsCount < 1 ∨ 10 < cfg.roundsCount then
    Except.error Err.BAD_REQUEST
  else if cfg.supportedCategories.length = 0 then Except.error Err.BAD_REQUEST
  else
    Except.ok { room with
      config := { roundsCount := cfg.roundsCount
                  supportedCategories := cfg.supportedCategories
                  excludedLetters := cfg.excludedLetters }
      totalRounds := cfg.roundsCount
      lastActivity := now }

/-- The tail of `startGame` once all guards passed: generate rounds, reject
with `INTERNAL_SERVER_ERROR` when none were generated, otherwise install
them and enter the `starting` phase. -/
def startGameGenerate (oracle : Oracle) (rand : Rand) (room : Room)
    (now : Nat) : Except Err Room :=
  if (generateRounds oracle rand room.config).length = 0 then
    Except.error Err.INTERNAL_SERVER_ERROR
  else
    Except.ok { room with
      rounds := generateRounds oracle rand room.config
      currentRound := 1
      phase := Phase.starting
      startedAt := some now
      lastActivity := now }

/-- `MultiplayerService.startGame`: membership and host guards, waiting
phase, at least one player, optional config override validated like
`updateConfig`, then round generation. -/
def startGameService (oracle : Oracle) (rand : Rand) (room : Room)
    (username : String) (cfg : Option Config) (now : Nat) : Except Err Room :=
  if !(playersHas room.players username) then Except.error Err.UNAUTHORIZED
  else if room.hostId ≠ username then Except.error Err.UNAUTHORIZED
  else if room.phase ≠ Phase.waiting then Except.error Err.BAD_REQUEST
  else if room.players.length < 1 then Except.error Err.BAD_REQUEST
  else
    match cfg with
    | some c =>
      if c.roundsCount < 1 ∨ 10 < c.roundsCount then Except.error Err.BAD_REQUEST
      else if c.supportedCategories.length = 0 then Except.error Err.BAD_REQUEST
      else
        startGameGenerate oracle rand
          { room with
            config := { roundsCount := c.roundsCount
                        supportedCategories := c.supportedCategories
                        excludedLetters := c.excludedLetters }
            totalRounds := c.roundsCount }
          now
    | none => startGameGenerate oracle rand room now

/-- The `game:start` socket handler (`websocket/server.ts`): on service
success it sets `phase = 'playing'`, stamps `rounds[0].startedAt` and calls
`updateRoom` (which refreshes `lastActivity`). -/
def startGameWs (oracle : Oracle) (rand : Rand) (room : Room)
    (username : String) (cfg : Option Config) (now : Nat) : Except Err Room :=
  match startGameService oracle rand room username cfg now with
  | Except.error e => Except.error e
  | Except.ok r =>
    Except.ok { r with
      phase := Phase.playing
      rounds := listModify (fun rd => { rd with startedAt := some now }) 0 r.rounds
      lastActivity := now }

/-- One element of the `answers` array submitted by a player. -/
structure SubmittedAnswer where
  letter : Char
  word : String
  category : String
  timeLeft : Int
deriving DecidableEq, Repr

/-- One element of the batch returned by `gameService.validateAnswers` (an
external collaborator). -/
structure ValidatedAnswer where
  valid : Bool
  wordScore : Int
  wordBonus : Int
  totalScore : Int
  word : String
  category : String
  letter : Char
deriving DecidableEq, Repr

/-- The success payload of `submitAnswers`. -/
structure SubmitResponse where
  results : List ValidatedAnswer
  roundScore : Int
  totalScore : Int
deriving DecidableEq, Repr

/-- The answer-log entry pushed for each validated answer (`timeLeft` is
read from the original submission at the same index). -/
def mkPlayerAnswer (roundNumber : Nat) (v : ValidatedAnswer)
    (a : SubmittedAnswer) : PlayerAnswer :=
  { roundNumber := roundNumber, letter := v.letter, word := v.word
    category := v.category, timeLeft := a.timeLeft, score := v.totalScore
    valid := v.valid }

/-- The round-score accumulation loop of `submitAnswers`. -/
def sumTotalScores (l : List ValidatedAnswer) : Int :=
  l.foldl (fun acc v => acc + v.totalScore) 0

/-- The submitting player after `submitAnswers` pushed the validated
answers, added the round score and refreshed `lastActivity`. -/
def submitUpdatedPlayer (player : Player) (roundNumber : Nat)
    (validated : List ValidatedAnswer) (answers : List SubmittedAnswer)
    (now : Nat) : Player :=
  { player with
    answers := player.answers ++ (validated.zip answers).map
      (fun va => mkPlayerAnswer roundNumber va.1 va.2)
    currentScore := player.currentScore + sumTotalScores validated
    lastActivity := now }

/-- The current round after `submissions.set(username, true)`. -/
def submitUpdatedRound (rd : Round) (u : String) : Round :=
  { rd with submissions := subsSet rd.submissions u }

/-- The room written back by `submitAnswers` before the all-submitted
check. -/
def submitUpdatedRoom (room : Room) (u : String) (player : Player)
    (rd : Round) (validated : List ValidatedAnswer)
    (answers : List SubmittedAnswer) (now : Nat) : Room :=
  { room with
    players := playersSet u
      (submitUpdatedPlayer player room.currentRound validated answers now)
      room.players
    rounds := room.rounds.set (room.currentRound - 1)
      (submitUpdatedRound rd u)
    lastActivity := now }

/-- The final room of `submitAnswers`: when every player has now
submitted (`players.size === submissions.size`) the phase advances to
`round_end`. -/
def submitFinalRoom (room : Room) (u : String) (player : Player) (rd : Round)
    (validated : List ValidatedAnswer) (answers : List SubmittedAnswer)
    (now : Nat) : Room :=
  if (submitUpdatedRoom room u player rd validated answers now).players.length ==
      (submitUpdatedRound rd u).submissions.length then
    { submitUpdatedRoom room u player rd validated answers now with
      phase := Phase.round_end }
  else submitUpdatedRoom room u player rd validated answers now

/-- `MultiplayerService.submitAnswers`.  `validation` is the outcome of the
external `gameService.validateAnswers` call (`none` = failure).  The
duplicate-submission check happens before validation is consumed and before
any state is touched.  When the validator returns more results than answers
were submitted, the JS loop reads `answers[i]` as `undefined` and throws,
which the catch-block converts to `INTERNAL_SERVER_ERROR`. -/
def submitAnswersRoom (room : Room) (username : String)
    (answers : List SubmittedAnswer)
    (validation : Option (List ValidatedAnswer)) (now : Nat) :
    Except Err (Room × SubmitResponse) :=
  if !(playersHas room.players username) then Except.error Err.UNAUTHORIZED
  else
    match playersGet room.players username with
    | none => Except.error Err.NOT_FOUND
    | some player =>
      if room.phase ≠ Phase.playing then Except.error Err.BAD_REQUEST
      else if room.currentRound < 1 ∨ room.rounds.length < room.currentRound then
        Except.error Err.BAD_REQUEST
      else
        match room.rounds.get? (room.currentRound - 1) with
        | none => Except.error Err.BAD_REQUEST
        | some currentRound =>
          if subsHas currentRound.submissions username then
            Except.error Err.BAD_REQUEST
          else
            match validation with
            | none => Except.error Err.INTERNAL_SERVER_ERROR
            | some validatedAnswers =>
              if answers.length < validatedAnswers.length then
                Except.error Err.INTERNAL_SERVER_ERROR
              else
                Except.ok
                  (submitFinalRoom room username player currentRound
                    validatedAnswers answers now,
                   { results := validatedAnswers
                     roundScore := sumTotalScores validatedAnswers
                     totalScore := (submitUpdatedPlayer player
                       room.currentRound validatedAnswers answers
                       now).currentScore })

/-- `room.winner` record built at the `finished` transition
(`winner.userId || winner.username`). -/
def mkWinner (p : Player) : Winner :=
  { userId := p.userId.getD p.username, username := p.username
    score := p.currentScore }

/-- Stable insertion step for sorting players by `currentScore` descending:
a later element is placed after every earlier element with an equal or
higher score. -/
def insertByScoreDesc (p : Player) : List Player → List Player
  | [] => [p]
  | q :: qs =>
    if q.currentScore ≤ p.currentScore then p :: q :: qs
    else q :: insertByScoreDesc p qs

/-- `players.sort((a, b) => b.currentScore - a.currentScore)`.
`Array.prototype.sort` is stable (ES2019), and a stable sort with respect
to a total preorder is unique, so the stable insertion sort below is
extensionally the JS sort. -/
def sortByScoreDesc : List Player → List Player
  | [] => []
  | p :: ps => insertByScoreDesc p (sortByScoreDesc ps)

/-- `MultiplayerService.nextRound`: in `round_end`, either finish the game
(no rounds left: compute the winner from the score-sorted players) or
advance to the next round.  The finished branch of the source does not
refresh `lastActivity`; the advancing branch does. -/
def nextRoundRoom (room : Room) (username : String) (now : Nat) :
    Except Err Room :=
  if !(playersHas room.players username) then Except.error Err.UNAUTHORIZED
  else if room.hostId ≠ username then Except.error Err.UNAUTHORIZED
  else if room.phase ≠ Phase.round_end then Except.error Err.BAD_REQUEST
  else if room.rounds.length ≤ room.currentRound then
    Except.ok { room with
      phase := Phase.finished
      winner :=
        match (sortByScoreDesc room.players).head? with
        | some w => some (mkWinner w)
        | none => room.winner }
  else
    Except.ok { room with
      currentRound := room.currentRound + 1
      phase := Phase.playing
      rounds := listModify (fun rd => { rd with startedAt := some now })
        room.currentRound room.rounds
      lastActivity := now }

/-- `MultiplayerService.endGame`: host-only early termination back to the
lobby; resets rounds, scores and answer logs. -/
def endGameRoom (room : Room) (username : String) (now : Nat) :
    Except Err Room :=
  if !(playersHas room.players username) then Except.error Err.UNAUTHORIZED
  else if room.hostId ≠ username then Except.error Err.UNAUTHORIZED
  else if room.phase = Phase.waiting then Except.error Err.BAD_REQUEST
  else
    Except.ok { room with
      phase := Phase.waiting
      currentRound := 0
      rounds := []
      startedAt := none
      winner := none
      lastActivity := now
      players := room.players.map
        (fun p => { p with currentScore := 0, answers := [] }) }

/-! ## The room registry (the NodeCache of `MultiplayerService`) -/

/-- Association-list lookup, first match wins (NodeCache keys are unique). -/
def assocLookup (l : List (String × α)) (k : String) : Option α :=
  (l.find? (fun kv => kv.1 == k)).map (fun kv => kv.2)

/-- `cache.set(k, v)`. -/
def assocSet (k : String) (v : α) : List (String × α) → List (String × α)
  | [] => [(k, v)]
  | kv :: kvs => if kv.1 == k then (k, v) :: kvs else kv :: assocSet k v kvs

/-- `cache.del(k)`. -/
def assocDel (l : List (String × α)) (k : String) : List (String × α) :=
  l.filter (fun kv => !(kv.1 == k))

/-- The two key families of the multiplayer NodeCache: `roomId -> room` and
`code:JOINCODE -> roomId` (the `code:` prefix is a namespacing detail and
the code map is keyed here by the join code itself). -/
structure Registry where
  rooms : List (String × Room)
  codes : List (String × String)
deriving DecidableEq, Repr

/-- `getRoom`. -/
def regGetRoom (reg : Registry) (roomId : String) : Option Room :=
  assocLookup reg.rooms roomId

/-- Resolution of a `code:` key. -/
def regGetCode (reg : Registry) (code : String) : Option String :=
  assocLookup reg.codes code

/-- `joinCode.toUpperCase()` (our codes and their casings are ASCII). -/
def toUpperStr (s : String) : String :=
  String.mk (s.toList.map Char.toUpper)

/-- `joinRoom`: resolve the uppercased join code to a room id, the id to a
room, then delegate to the room-level join. -/
def joinRoomReg (reg : Registry) (joinCode username avatar : String)
    (now : Nat) : Except Err (Registry × Room) :=
  match regGetCode reg (toUpperStr joinCode) with
  | none => Except.error Err.NOT_FOUND
  | some roomId =>
    match regGetRoom reg roomId with
    | none => Except.error Err.NOT_FOUND
    | some room =>
      match joinRoomRoom room username avatar now with
      | Except.error e => Except.error e
      | Except.ok room' =>
        Except.ok ({ reg with rooms := assocSet roomId room' reg.rooms }, room')

/-- `rejoinRoom`: same code resolution as `joinRoom`. -/
def rejoinRoomReg (reg : Registry) (joinCode username : String)
    (avatar : Option String) (now : Nat) : Except Err (Registry × Room) :=
  match regGetCode reg (toUpperStr joinCode) with
  | none => Except.error Err.NOT_FOUND
  | some roomId =>
    match regGetRoom reg roomId with
    | none => Except.error Err.NOT_FOUND
    | some room =>
      match rejoinRoomRoom room username avatar now with
      | Except.error e => Except.error e
      | Except.ok room' =>
        Except.ok ({ reg with rooms := assocSet roomId room' reg.rooms }, room')

/-- `leaveRoom` at the registry: when the room-level leave deletes the
room, both `cache.del(roomId)` and `cache.del('code:' + joinCode)` run. -/
def leaveRoomReg (reg : Registry) (roomId username : String) (now : Nat) :
    Except Err Registry :=
  match regGetRoom reg roomId with
  | none => Except.error Err.NOT_FOUND
  | some room =>
    match leaveRoomRoom room username now with
    | Except.error e => Except.error e
    | Except.ok none =>
      Except.ok { rooms := assocDel reg.rooms roomId
                  codes := assocDel reg.codes room.joinCode }
    | Except.ok (some room') =>
      Except.ok { reg with rooms := assocSet roomId room' reg.rooms }

/-- The registry after a room deletion: both the id key and the join-code
key are removed. -/
def regAfterDelete (reg : Registry) (roomId joinCode : String) : Registry :=
  { rooms := assocDel reg.rooms roomId
    codes := assocDel reg.codes joinCode }

/-! ## Trace semantics for the room lifecycle -/

/-- The operations named by the lifecycle claims (create is the initial
state).  Each carries its external inputs: timestamps, the letter oracle
and randomness for game start, and the validator outcome for submissions. -/
inductive Op where
  | join (username avatar : String) (now : Nat)
  | leave (username : String) (now : Nat)
  | start (oracle : Oracle) (rand : Rand) (username : String)
      (cfg : Option Config) (now : Nat)
  | submit (username : String) (answers : List SubmittedAnswer)
      (validation : Option (List ValidatedAnswer)) (now : Nat)
  | next (username : String) (now : Nat)
  | endGame (username : String) (now : Nat)

/-- Effect of one operation on the stored room: a rejected operation leaves
the store unchanged, a successful leave of the last player deletes the
room (`none`). -/
def applyOp (room : Room) : Op → Option Room
  | Op.join u a now =>
    match joinRoomRoom room u a now with
    | Except.ok r => some r
    | Except.error _ => some room
  | Op.leave u now =>
    match leaveRoomRoom room u now with
    | Except.ok r? => r?
    | Except.error _ => some room
  | Op.start oracle rand u cfg now =>
    match startGameWs oracle rand room u cfg now with
    | Except.ok r => some r
    | Except.error _ => some room
  | Op.submit u a v now =>
    match submitAnswersRoom room u a v now with
    | Except.ok rr => some rr.1
    | Except.error _ => some room
  | Op.next u now =>
    match nextRoundRoom room u now with
    | Except.ok r => some r
    | Except.error _ => some room
  | Op.endGame u now =>
    match endGameRoom room u now with
    | Except.ok r => some r
    | Except.error _ => some room

/-- Run a list of operations from a starting room. -/
def runOps (room : Room) : List Op → Option Room
  | [] => some room
  | op :: ops =>
    match applyOp room op with
    | none => none
    | some r => runOps r ops

/-- The store committed after a room operation: a rejected operation never
wrote the room back (NodeCache holds clones, so early returns leave the
stored room untouched). -/
def commit (room : Room) (r : Except Err Room) : Room :=
  match r with
  | Except.ok r' => r'
  | Except.error _ => room

/-- Side condition of the amended submission-set claim: leaves happen only
while the room is still in the lobby. -/
def leaveOnlyWaiting (r : Room) : Op → Prop
  | Op.leave _ _ => r.phase = Phase.waiting
  | _ => True

/-- Rooms reachable from creation through join / leave / start / submit /
next / endGame, where every leave happens in the waiting phase. -/
inductive GoodReach : Room → Prop where
  | init (roomId joinCode username avatar : String) (now : Nat) :
      GoodReach (createRoomRoom roomId joinCode username avatar now)
  | step (r r' : Room) (op : Op) : GoodReach r → leaveOnlyWaiting r op →
      applyOp r op = some r' → GoodReach r'

/-- The submission-set property claimed for every room state: the current
round's submissions are usernames of present players, and a full
submission set forces the phase past `playing`. -/
def SubsInvariant (room : Room) : Prop :=
  ∀ rd, room.rounds.get? (room.currentRound - 1) = some rd →
    1 ≤ room.currentRound →
    (∀ u ∈ rd.submissions, u ∈ usernames room.players) ∧
    (rd.submissions.length = room.players.length →
      room.phase = Phase.round_end ∨ room.phase = Phase.finished)

/-- Every stored round has duplicate-free submissions drawn from the
present players. -/
def RoundsOk (room : Room) : Prop :=
  ∀ j rd, room.rounds.get? j = some rd →
    rd.submissions.Nodup ∧ ∀ u ∈ rd.submissions, u ∈ usernames room.players

/-- Rounds at or after the current one have no submissions yet
(0-based index `j` at or past `currentRound` is strictly after the
1-indexed current round). -/
def FutureEmpty (room : Room) : Prop :=
  ∀ j rd, room.currentRound ≤ j → room.rounds.get? j = some rd →
    rd.submissions = []

/-- A full submission set on the current round forces the phase past
`playing`. -/
def AllSubmittedPhase (room : Room) : Prop :=
  ∀ rd, room.rounds.get? (room.currentRound - 1) = some rd →
    1 ≤ room.currentRound →
    rd.submissions.length = room.players.length →
    room.phase = Phase.round_end ∨ room.phase = Phase.finished

/-- The inductive invariant maintained by all operations on good traces. -/
def RoomInv (room : Room) : Prop :=
  room.players ≠ [] ∧
  (usernames room.players).Nodup ∧
  room.hostId ∈ usernames room.players ∧
  RoundsOk room ∧
  (room.phase = Phase.waiting → room.rounds = []) ∧
  FutureEmpty room ∧
  AllSubmittedPhase room

/-- First player attaining the maximal score, in list (= join) order. -/
def firstMaxPlayer : List Player → Option Player
  | [] => none
  | p :: ps =>
    match firstMaxPlayer ps with
    | none => some p
    | some q => some (if p.currentScore < q.currentScore then q else p)

/-- Number of admissible letters among the non-excluded alphabet for a
config: the exhaustive-retry bound of round generation. -/
def admissibleCount (oracle : Oracle) (cfg : Config) : Nat :=
  ((alphabet.filter (fun c => !(cfg.excludedLetters.contains c))).filter
    (letterAdmissible oracle cfg.supportedCategories)).length

/-! ## Concrete fixtures -/

/-- An oracle for which every letter has the three categories name, place,
animal. -/
def oracleAll : Oracle := fun _ => ["name", "place", "animal"]

/-- An oracle for which only the letter A is admissible. -/
def oracleOnlyA : Oracle := fun c =>
  if c = 'A' then ["name", "place", "animal"] else []

/-- Deterministic randomness: identity shuffles, always the low draw. -/
def randId : Rand :=
  { shuffleLetters := id, catCountDraw := fun _ => 0
    shuffleCats := fun _ l => l }

/-- A three-category config asking for two rounds. -/
def cfgTwoRounds : Config :=
  { roundsCount := 2, supportedCategories := ["name", "place", "animal"]
    excludedLetters := [] }

/-- A three-category config asking for one round. -/
def cfgOneRound : Config :=
  { roundsCount := 1, supportedCategories := ["name", "place", "animal"]
    excludedLetters := [] }

/-- Fresh room hosted by alice. -/
def roomAlice : Room := createRoomRoom "room-1" "ABCDEF" "alice" "a" 0

/-- Round generation for `cfgTwoRounds` under `oracleOnlyA` finds a single
admissible letter, so `startGame` installs one round for a two-round
config. -/
def c1CexResult : Except Err Room :=
  startGameService oracleOnlyA randId roomAlice "alice" (some cfgTwoRounds) 5

/-- Trace refuting the unrestricted submission-set invariant: bob joins,
the game starts, alice submits for round 1, then alice leaves mid-game. -/
def c2CexOps : List Op :=
  [Op.join "bob" "b" 1,
   Op.start oracleAll randId "alice" (some cfgOneRound) 2,
   Op.submit "alice" [] (some []) 3,
   Op.leave "alice" 4]

/-- The room reached by the refuting trace. -/
def c2CexRoom : Room := (runOps roomAlice c2CexOps).getD roomAlice

/-- A single-player room about to receive the last submission of its only
round (the last-submission fixture for the missing `endedAt`). -/
def c3Room : Room :=
  { roomAlice with
    phase := Phase.playing
    currentRound := 1
    startedAt := some 2
    rounds := [{ roundNumber := 1, letter := 'A'
                 categories := [mkRoundCategory "name", mkRoundCategory "place",
                                mkRoundCategory "animal"]
                 submissions := [], startedAt := some 2, endedAt := none }] }

/-- Two-player variant of `c3Room` (bob has not submitted yet). -/
def c3RoomTwo : Room :=
  { c3Room with
    players := c3Room.players ++ [mkJoinPlayer "bob" "b" 1] }

/-- `c3RoomTwo` after alice has already submitted for round 1. -/
def c4Room : Room :=
  { c3RoomTwo with
    rounds := [{ roundNumber := 1, letter := 'A'
                 categories := [mkRoundCategory "name"]
                 submissions := ["alice"], startedAt := some 2, endedAt := none }] }

/-- Two players with equal 300-point scores and distinct join times, in a
finished-last-round room: the tie-break fixture. -/
def c5Room : Room :=
  { roomAlice with
    phase := Phase.round_end
    currentRound := 1
    players := [{ mkHostPlayer "alice" "a" 0 with currentScore := 300 },
                { mkJoinPlayer "bob" "b" 1 with currentScore := 300 }]
    rounds := [{ roundNumber := 1, letter := 'A'
                 categories := [mkRoundCategory "name"]
                 submissions := ["alice", "bob"], startedAt := some 2
                 endedAt := none }] }

/-- Three-player room for the host-leave fixture. -/
def c7Room : Room :=
  { roomAlice with
    players := roomAlice.players ++ [mkJoinPlayer "bob" "b" 1,
                                     mkJoinPlayer "carol" "c" 2] }

/-- A registry holding `roomAlice` under its id and join code. -/
def regAlice : Registry :=
  { rooms := [("room-1", roomAlice)], codes := [("ABCDEF", "room-1")] }

/-- `c3Room` (mid-game, phase playing) for the config-rejection fixture. -/
def c8Room : Room := c3Room

/-- Send `n` numbered chat messages from alice (message `i+1` at time
`i`). -/
def chatFixtureRoom (n : Nat) : Room :=
  (List.range n).foldl
    (fun r i =>
      commit r ((sendChatMessageRoom r "alice" (toString (i + 1)) i).map
        Prod.fst))
    roomAlice

/-- The chat message accepted in the single-send witness. -/
def c9WitnessMsg : ChatMessage :=
  { username := "alice", message := "hello", timestamp := 3 }

/-- `roomAlice` after the single-send witness. -/
def c9WitnessRoom : Room :=
  { roomAlice with chatMessages := [c9WitnessMsg], lastActivity := 3 }

/-- The duplicate-submission round stored in `c4Room`. -/
def c4Round : Round :=
  { roundNumber := 1, letter := 'A', categories := [mkRoundCategory "name"]
    submissions := ["alice"], startedAt := some 2, endedAt := none }

instance instDecidableSubsInvariant (room : Room) :
    Decidable (SubsInvariant room) :=
  match h : room.rounds.get? (room.currentRound - 1) with
  | none =>
    isTrue (fun rd hrd => by rw [h] at hrd; exact Option.noConfusion hrd)
  | some rd0 =>
    decidable_of_iff
      (1 ≤ room.currentRound →
        (∀ u ∈ rd0.submissions, u ∈ usernames room.players) ∧
        (rd0.submissions.length = room.players.length →
          room.phase = Phase.round_end ∨ room.phase = Phase.finished))
      (Iff.intro
        (fun hp rd hrd h1 => by rw [h] at hrd; cases hrd; exact hp h1)
        (fun hS => hS rd0 h))

/-! ## Helper lemmas about the map embeddings -/

theorem playersGet_some {ps : List Player} {u : String} {p : Player}
    (h : playersGet ps u = some p) : p ∈ ps ∧ p.username = u := by
  unfold playersGet at h
  refine ⟨List.mem_of_find?_eq_some h, ?_⟩
  have := List.find?_some h
  simpa using this

theorem playersHas_iff {ps : List Player} {u : String} :
    playersHas ps u = true ↔ u ∈ usernames ps := by
  unfold playersHas playersGet usernames
  rw [List.find?_isSome]
  constructor
  · rintro ⟨p, hp, he⟩
    exact List.mem_map.2 ⟨p, hp, by simpa using he⟩
  · intro h
    rcases List.mem_map.1 h with ⟨p, hp, he⟩
    exact ⟨p, hp, by simp [he]⟩

theorem usernames_playersSet_of_mem {ps : List Player} {u : String}
    {p : Player} (hp : p.username = u) (h : u ∈ usernames ps) :
    usernames (playersSet u p ps) = usernames ps := by
  induction ps with
  | nil => simp [usernames] at h
  | cons q qs ih =>
    by_cases hq : q.username = u
    · simp [playersSet, usernames, hq, hp]
    · have h' : u ∈ usernames qs := by
        rcases List.mem_map.1 h with ⟨x, hx, he⟩
        rcases List.mem_cons.1 hx with rfl | hx'
        · exact absurd he hq
        · exact List.mem_map.2 ⟨x, hx', he⟩
      simp only [playersSet, usernames]
      rw [if_neg (by simpa using hq)]
      simpa [usernames] using ih h'

theorem length_playersSet_of_mem {ps : List Player} {u : String}
    {p : Player} (hp : p.username = u) (h : u ∈ usernames ps) :
    (playersSet u p ps).length = ps.length := by
  have := congrArg List.length (usernames_playersSet_of_mem hp h)
  simpa [usernames] using this

theorem usernames_playersDelete (ps : List Player) (u : String) :
    usernames (playersDelete ps u) =
      (usernames ps).filter (fun s => !(s == u)) := by
  induction ps with
  | nil => rfl
  | cons q qs ih =>
    by_cases hq : q.username = u
    · simp [playersDelete, usernames, hq] at *
      simpa [playersDelete, usernames] using ih
    · simp only [playersDelete, usernames, List.filter_cons, List.map_cons] at *
      rw [if_pos (by simpa using hq), if_pos (by simpa using hq)]
      simpa [playersDelete, usernames] using ih

theorem mem_of_mem_playersDelete {ps : List Player} {u : String} {q : Player}
    (h : q ∈ playersDelete ps u) : q ∈ ps :=
  List.mem_of_mem_filter h

theorem username_ne_of_mem_playersDelete {ps : List Player} {u : String}
    {q : Player} (h : q ∈ playersDelete ps u) : q.username ≠ u := by
  have := List.of_mem_filter h
  simpa using this

theorem subsSet_of_not_mem {s : List String} {u : String}
    (h : u ∉ s) : subsSet s u = s ++ [u] := by
  unfold subsSet
  rw [if_neg]
  simpa using h

theorem get?_listModify (f : α → α) (n : Nat) (l : List α) (j : Nat) :
    (listModify f n l).get? j =
      if j = n then (l.get? j).map f else l.get? j := by
  induction l generalizing n j with
  | nil => simp [listModify]
  | cons a as ih =>
    cases n with
    | zero =>
      cases j with
      | zero => simp [listModify]
      | succ j => simp [listModify]
    | succ n =>
      cases j with
      | zero => simp [listModify]
      | succ j =>
        simp only [listModify, List.get?]
        rw [ih n j]
        by_cases hj : j = n
        · simp [hj]
        · rw [if_neg hj, if_neg (by omega)]

theorem length_listModify (f : α → α) (n : Nat) (l : List α) :
    (listModify f n l).length = l.length := by
  induction l generalizing n with
  | nil => cases n <;> rfl
  | cons a as ih =>
    cases n with
    | zero => simp [listModify]
    | succ n => simp [listModify, ih]

theorem set_eq_listModify (l : List α) (n : Nat) (a : α) :
    l.set n a = listModify (fun _ => a) n l := by
  induction l generalizing n with
  | nil => cases n <;> rfl
  | cons b bs ih =>
    cases n with
    | zero => rfl
    | succ n => simp [listModify, List.set, ih]

theorem assocLookup_assocDel_self (l : List (String × α)) (k : String) :
    assocLookup (assocDel l k) k = none := by
  induction l with
  | nil => rfl
  | cons kv kvs ih =>
    by_cases hk : kv.1 = k
    · simpa [assocDel, hk] using ih
    · simp only [assocDel, List.filter_cons] at *
      rw [if_pos (by simpa using hk)]
      unfold assocLookup at *
      simp only [List.find?]
      rw [show (kv.1 == k) = false by simpa using hk]
      exact ih

/-! ## C3: the all-submitted transition sets `round_end` but never
`endedAt` -/

/-- C3 (code_bug evidence): when the last required submission lands, the
code moves the room to `round_end` but leaves the current round's
`endedAt` unset (the field does not even exist on `GameRoomRound` and is
never assigned), while a submission that leaves some player unsubmitted
keeps the phase at `playing`. -/
theorem c3_round_end_without_endedAt :
    (submitAnswersRoom c3Room "alice" [] (some []) 10).map
        (fun rr => (rr.1.phase, (rr.1.rounds.get? 0).map Round.endedAt))
      = Except.ok (Phase.round_end, some none) ∧
    (submitAnswersRoom c3RoomTwo "alice" [] (some []) 10).map
        (fun rr => rr.1.phase)
      = Except.ok Phase.playing := by
  exact ⟨rfl, rfl⟩

/-! ## C1: round generation versus `roundsCount` -/

/-- C1 (counterexample): with an oracle under which only the letter A is
admissible, the host's `startGame` with `roundsCount = 2` succeeds and
installs a single round — the game starts with fewer rounds than
requested instead of being rejected. -/
theorem c1_counterexample :
    c1CexResult.map (fun r => (r.phase, r.rounds.length, r.config.roundsCount))
      = Except.ok (Phase.starting, 1, 2) := by
  exact rfl

/-! ## C6: join-code generation -/

theorem getD_mem_of_lt {l : List α} {n : Nat} {d : α} (h : n < l.length) :
    l.getD n d ∈ l := by
  unfold List.getD
  rw [List.get?_eq_get h]
  exact List.get_mem l n h

theorem generateJoinCode_length (randIdx : Nat → Nat) (attempt : Nat) :
    (generateJoinCode randIdx attempt).length = 6 := by
  unfold generateJoinCode
  simp [String.length]

theorem generateJoinCode_chars (randIdx : Nat → Nat) (attempt : Nat) :
    ∀ c ∈ (generateJoinCode randIdx attempt).toList, c ∈ joinCodeChars := by
  unfold generateJoinCode
  intro c hc
  simp only [String.toList] at hc
  rcases List.mem_map.1 hc with ⟨i, _, he⟩
  subst he
  apply getD_mem_of_lt
  have h32 : joinCodeChars.length = 32 := by decide
  rw [h32]
  exact Nat.mod_lt _ (by omega)

theorem generateUniqueJoinCodeLoop_ok {occupied : String → Bool}
    {randIdx : Nat → Nat} :
    ∀ (fuel : Nat) (code : String) (attempts : Nat) (c : String),
    generateUniqueJoinCodeLoop occupied randIdx code attempts fuel =
      Except.ok c → occupied c = false := by
  intro fuel
  induction fuel with
  | zero =>
    intro code attempts c h
    unfold generateUniqueJoinCodeLoop at h
    split at h
    · exact Except.noConfusion h
    · split at h
      · exact Except.noConfusion h
      · cases h
        rename_i hcond hlt
        simp only [not_and, not_lt] at hcond
        by_cases hocc : occupied code = true
        · exact absurd (hcond hocc) (by omega)
        · simpa using hocc
  | succ fuel ih =>
    intro code attempts c h
    unfold generateUniqueJoinCodeLoop at h
    split at h
    · exact ih _ _ _ h
    · split at h
      · exact Except.noConfusion h
      · cases h
        rename_i hcond hlt
        simp only [not_and, not_lt] at hcond
        by_cases hocc : occupied code = true
        · exact absurd (hcond hocc) (by omega)
        · simpa using hocc

theorem generateUniqueJoinCodeLoop_error {occupied : String → Bool}
    {randIdx : Nat → Nat}
    (hall : ∀ i, i < 10 → occupied (generateJoinCode randIdx i) = true) :
    ∀ (fuel attempts : Nat), attempts + fuel = 10 →
    generateUniqueJoinCodeLoop occupied randIdx
      (generateJoinCode randIdx attempts) attempts fuel =
      Except.error Err.INTERNAL_SERVER_ERROR := by
  intro fuel
  induction fuel with
  | zero =>
    intro attempts h10
    unfold generateUniqueJoinCodeLoop
    rw [if_neg (by omega)]
    rw [if_pos (by omega)]
  | succ fuel ih =>
    intro attempts h10
    unfold generateUniqueJoinCodeLoop
    rw [if_pos ⟨hall attempts (by omega), by omega⟩]
    exact ih (attempts + 1) (by omega)

/-- C6 (amended): join codes are six characters drawn from the 32-symbol
alphabet `ABCDEFGHJKLMNPQRSTUVWXYZ23456789`; the generator retries on
collision with an active code up to 10 attempts and returns a
collision-free code when one is found; but when the retry bound is
exhausted it throws (surfaced as `INTERNAL_SERVER_ERROR`, failing room
creation) instead of falling back to a numeric disambiguator. -/
theorem c6_joincode_generation :
    (∀ randIdx attempt, (generateJoinCode randIdx attempt).length = 6 ∧
        ∀ c ∈ (generateJoinCode randIdx attempt).toList, c ∈ joinCodeChars) ∧
    (∀ (occupied : String → Bool) randIdx c,
        generateUniqueJoinCode occupied randIdx = Except.ok c →
        occupied c = false) ∧
    (∀ (occupied : String → Bool) randIdx,
        (∀ i, i < 10 → occupied (generateJoinCode randIdx i) = true) →
        generateUniqueJoinCode occupied randIdx =
          Except.error Err.INTERNAL_SERVER_ERROR) := by
  refine ⟨fun randIdx attempt => ⟨generateJoinCode_length randIdx attempt,
      generateJoinCode_chars randIdx attempt⟩, ?_, ?_⟩
  · intro occupied randIdx c h
    exact generateUniqueJoinCodeLoop_ok 10 _ 0 c h
  · intro occupied randIdx hall
    exact generateUniqueJoinCodeLoop_error hall 10 0 rfl

/-- C6 witness: a concrete generated code has six alphabet characters, and
a fully occupied registry makes generation fail. -/
theorem c6_joincode_witness :
    (generateJoinCode (fun n => n * 7) 0).length = 6 ∧
    generateUniqueJoinCode (fun _ => true) (fun _ => 0) =
      Except.error Err.INTERNAL_SERVER_ERROR :=
  ⟨(c6_joincode_generation.1 (fun n => n * 7) 0).1,
   c6_joincode_generation.2.2 (fun _ => true) (fun _ => 0)
     (fun _ _ => rfl)⟩

/-- C6 counterexample: exhausting the ten collision retries makes
`generateUniqueJoinCode` throw — there is no numeric-disambiguator
fallback, and `createRoom` fails with `INTERNAL_SERVER_ERROR`. -/
theorem c6_counterexample :
    generateUniqueJoinCode (fun _ => true) (fun n => n) =
      Except.error Err.INTERNAL_SERVER_ERROR := by
  exact rfl

/-! ## C9: chat history is a 50-entry FIFO window -/

set_option maxRecDepth 8000 in
/-- C9: an accepted chat message is appended at the end and, when the
history would exceed 50 entries, the oldest entry is dropped; the history
never exceeds 50 entries, and after 55 accepted messages exactly messages
6 through 55 remain in arrival order. -/
theorem c9_chat_fifo :
    (∀ room u m now r' msg,
        sendChatMessageRoom room u m now = Except.ok (r', msg) →
        r'.chatMessages =
          (if 50 < (room.chatMessages ++ [msg]).length
           then (room.chatMessages ++ [msg]).tail
           else room.chatMessages ++ [msg]) ∧
        (room.chatMessages.length ≤ 50 → r'.chatMessages.length ≤ 50)) ∧
    ((chatFixtureRoom 55).chatMessages.map ChatMessage.message =
      (List.range 50).map (fun i => toString (i + 6))) := by
  constructor
  · intro room u m now r' msg h
    unfold sendChatMessageRoom at h
    split at h
    · exact Except.noConfusion h
    · split at h
      · exact Except.noConfusion h
      · split at h
        · exact Except.noConfusion h
        · rw [Except.ok.injEq, Prod.mk.injEq] at h
          obtain ⟨hr, hm⟩ := h
          subst hm
          subst hr
          constructor
          · rfl
          · intro hlen
            split
            · simp only [List.length_tail, List.length_append,
                List.length_singleton]
              omega
            · rename_i hgt
              simp only [List.length_append, List.length_singleton] at *
              omega
  · exact rfl

/-- C9 witness: one accepted message in a fresh room obeys the append
rule, instantiated through the general theorem. -/
theorem c9_chat_witness :
    c9WitnessRoom.chatMessages =
      (if 50 < (roomAlice.chatMessages ++ [c9WitnessMsg]).length
       then (roomAlice.chatMessages ++ [c9WitnessMsg]).tail
       else roomAlice.chatMessages ++ [c9WitnessMsg]) ∧
    (roomAlice.chatMessages.length ≤ 50 →
      c9WitnessRoom.chatMessages.length ≤ 50) :=
  c9_chat_fifo.1 roomAlice "alice" "hello" 3 c9WitnessRoom c9WitnessMsg rfl

/-! ## C10: join codes resolve case-insensitively -/

theorem joinCodeChars_toUpper : ∀ c ∈ joinCodeChars, c.toUpper = c := by
  decide

theorem toUpperStr_generateJoinCode (randIdx : Nat → Nat) (attempt : Nat) :
    toUpperStr (generateJoinCode randIdx attempt) =
      generateJoinCode randIdx attempt := by
  unfold toUpperStr generateJoinCode
  simp only [String.toList]
  rw [List.map_map]
  congr 1
  apply List.map_congr_left
  intro i _
  apply joinCodeChars_toUpper
  apply getD_mem_of_lt
  have h32 : joinCodeChars.length = 32 := by decide
  rw [h32]
  exact Nat.mod_lt _ (by omega)

/-- C10: `joinRoom` and `rejoinRoom` uppercase the supplied code before
the registry lookup, so any two codes with the same uppercasing resolve
identically; and generated join codes are fixed points of uppercasing, so
every casing of a room's code addresses that room. -/
theorem c10_join_code_casing :
    (∀ randIdx attempt,
        toUpperStr (generateJoinCode randIdx attempt) =
          generateJoinCode randIdx attempt) ∧
    (∀ reg s c u a now, toUpperStr s = toUpperStr c →
        joinRoomReg reg s u a now = joinRoomReg reg c u a now) ∧
    (∀ reg s c u av now, toUpperStr s = toUpperStr c →
        rejoinRoomReg reg s u av now = rejoinRoomReg reg c u av now) := by
  refine ⟨toUpperStr_generateJoinCode, ?_, ?_⟩
  · intro reg s c u a now h
    unfold joinRoomReg
    rw [h]
  · intro reg s c u av now h
    unfold rejoinRoomReg
    rw [h]

/-- C10 witness: a lowercase presentation of the fixture room's code
resolves exactly like the stored uppercase code, and a concrete generated
code is uppercase-stable. -/
theorem c10_join_code_witness :
    toUpperStr (generateJoinCode (fun n => n * 7) 0) =
      generateJoinCode (fun n => n * 7) 0 ∧
    joinRoomReg regAlice "abcdef" "bob" "b" 9 =
      joinRoomReg regAlice "ABCDEF" "bob" "b" 9 :=
  ⟨c10_join_code_casing.1 (fun n => n * 7) 0,
   c10_join_code_casing.2.1 regAlice "abcdef" "ABCDEF" "bob" "b" 9 (by decide)⟩

/-! ## C4: duplicate submissions are rejected without mutation -/

/-- C4: while a room is playing, a second `submitAnswers` by a username
already in the current round's submission set is rejected with
`BAD_REQUEST` before any state is touched, so the stored room — the
player's answer log, score, the submission set and the phase — is exactly
the one from before the call. -/
theorem c4_duplicate_submission (room : Room) (u : String)
    (answers : List SubmittedAnswer)
    (validation : Option (List ValidatedAnswer)) (now : Nat) (rd : Round)
    (hphase : room.phase = Phase.playing)
    (hcr : 1 ≤ room.currentRound)
    (hrd : room.rounds.get? (room.currentRound - 1) = some rd)
    (hmem : playersHas room.players u = true)
    (hdup : subsHas rd.submissions u = true) :
    submitAnswersRoom room u answers validation now =
      Except.error Err.BAD_REQUEST ∧
    applyOp room (Op.submit u answers validation now) = some room := by
  have hps : ∃ p, playersGet room.players u = some p := by
    unfold playersHas at hmem
    exact Option.isSome_iff_exists.mp hmem
  obtain ⟨p, hp⟩ := hps
  obtain ⟨hlt, -⟩ := List.get?_eq_some.mp hrd
  have h1 : submitAnswersRoom room u answers validation now =
      Except.error Err.BAD_REQUEST := by
    unfold submitAnswersRoom
    rw [hp]
    simp only [hmem, Bool.not_true, Bool.false_eq_true, if_false]
    rw [if_neg (by simp [hphase])]
    rw [if_neg (by omega)]
    rw [hrd]
    simp [hdup]
  refine ⟨h1, ?_⟩
  have h2 : applyOp room (Op.submit u answers validation now) =
      match submitAnswersRoom room u answers validation now with
      | Except.ok rr => some rr.1
      | Except.error _ => some room := rfl
  rw [h2, h1]

/-- C4 witness: alice, who already submitted for round 1 of `c4Room`, is
rejected with `BAD_REQUEST` and the stored room is unchanged. -/
theorem c4_duplicate_submission_witness :
    submitAnswersRoom c4Room "alice" [] (some []) 11 =
      Except.error Err.BAD_REQUEST ∧
    applyOp c4Room (Op.submit "alice" [] (some []) 11) = some c4Room :=
  c4_duplicate_submission c4Room "alice" [] (some []) 11 c4Round rfl
    (by decide) rfl (by decide) (by decide)

/-! ## C8: config and game-start guards -/

/-- C8: once the phase is not `waiting`, a host's `updateConfig` and
`startGame` are rejected with `BAD_REQUEST`; `updateConfig` rejects
non-host callers with `UNAUTHORIZED` and, in the waiting phase, configs
with `roundsCount` outside 1..10 or empty categories with `BAD_REQUEST`;
every rejection leaves the stored room (hence its config) unchanged. -/
theorem c8_config_guards :
    (∀ room u cfg now, playersHas room.players u = true → room.hostId = u →
        room.phase ≠ Phase.waiting →
        updateConfigRoom room u cfg now = Except.error Err.BAD_REQUEST ∧
        commit room (updateConfigRoom room u cfg now) = room) ∧
    (∀ oracle rand room u cfg now, playersHas room.players u = true →
        room.hostId = u → room.phase ≠ Phase.waiting →
        startGameService oracle rand room u cfg now =
          Except.error Err.BAD_REQUEST ∧
        commit room (startGameService oracle rand room u cfg now) = room) ∧
    (∀ room u cfg now, playersHas room.players u = true → room.hostId ≠ u →
        updateConfigRoom room u cfg now = Except.error Err.UNAUTHORIZED ∧
        commit room (updateConfigRoom room u cfg now) = room) ∧
    (∀ room u cfg now, playersHas room.players u = true → room.hostId = u →
        room.phase = Phase.waiting →
        (cfg.roundsCount < 1 ∨ 10 < cfg.roundsCount ∨
          cfg.supportedCategories = []) →
        updateConfigRoom room u cfg now = Except.error Err.BAD_REQUEST ∧
        commit room (updateConfigRoom room u cfg now) = room) := by
  refine ⟨?_, ?_, ?_, ?_⟩
  · intro room u cfg now hmem hhost hphase
    have h1 : updateConfigRoom room u cfg now =
        Except.error Err.BAD_REQUEST := by
      unfold updateConfigRoom
      simp only [hmem, Bool.not_true, Bool.false_eq_true, if_false]
      rw [if_neg (by simp [hhost])]
      rw [if_pos hphase]
    exact ⟨h1, by rw [h1]; rfl⟩
  · intro oracle rand room u cfg now hmem hhost hphase
    have h1 : startGameService oracle rand room u cfg now =
        Except.error Err.BAD_REQUEST := by
      unfold startGameService
      simp only [hmem, Bool.not_true, Bool.false_eq_true, if_false]
      rw [if_neg (by simp [hhost])]
      rw [if_pos hphase]
    exact ⟨h1, by rw [h1]; rfl⟩
  · intro room u cfg now hmem hhost
    have h1 : updateConfigRoom room u cfg now =
        Except.error Err.UNAUTHORIZED := by
      unfold updateConfigRoom
      simp only [hmem, Bool.not_true, Bool.false_eq_true, if_false]
      rw [if_pos hhost]
    exact ⟨h1, by rw [h1]; rfl⟩
  · intro room u cfg now hmem hhost hphase hbad
    have h1 : updateConfigRoom room u cfg now =
        Except.error Err.BAD_REQUEST := by
      unfold updateConfigRoom
      simp only [hmem, Bool.not_true, Bool.false_eq_true, if_false]
      rw [if_neg (by simp [hhost])]
      rw [if_neg (by simp [hphase])]
      by_cases hrc : cfg.roundsCount < 1 ∨ 10 < cfg.roundsCount
      · rw [if_pos hrc]
      · rw [if_neg hrc]
        have hcats : cfg.supportedCategories = [] := by
          rcases hbad with h | h | h
          · exact absurd (Or.inl h) hrc
          · exact absurd (Or.inr h) hrc
          · exact h
        rw [if_pos (by simp [hcats])]
    exact ⟨h1, by rw [h1]; rfl⟩

/-- C8 witness: in the mid-game fixture room the host's config update and
game start are both rejected with `BAD_REQUEST`, a non-host update is
rejected with `UNAUTHORIZED`, and an out-of-range config is rejected in
the lobby — all leaving the stored room unchanged. -/
theorem c8_config_guards_witness :
    (updateConfigRoom c8Room "alice" defaultConfig 7 =
        Except.error Err.BAD_REQUEST ∧
      commit c8Room (updateConfigRoom c8Room "alice" defaultConfig 7) =
        c8Room) ∧
    (startGameService oracleAll randId c8Room "alice" none 7 =
        Except.error Err.BAD_REQUEST ∧
      commit c8Room (startGameService oracleAll randId c8Room "alice" none 7) =
        c8Room) ∧
    (updateConfigRoom c3RoomTwo "bob" defaultConfig 7 =
        Except.error Err.UNAUTHORIZED ∧
      commit c3RoomTwo (updateConfigRoom c3RoomTwo "bob" defaultConfig 7) =
        c3RoomTwo) ∧
    (updateConfigRoom roomAlice "alice"
        { roundsCount := 11, supportedCategories := ["name"],
          excludedLetters := [] } 7 = Except.error Err.BAD_REQUEST ∧
      commit roomAlice (updateConfigRoom roomAlice "alice"
        { roundsCount := 11, supportedCategories := ["name"],
          excludedLetters := [] } 7) = roomAlice) :=
  ⟨c8_config_guards.1 c8Room "alice" defaultConfig 7 (by decide) rfl
      (by decide),
   c8_config_guards.2.1 oracleAll randId c8Room "alice" none 7 (by decide)
      rfl (by decide),
   c8_config_guards.2.2.1 c3RoomTwo "bob" defaultConfig 7 (by decide)
      (by decide),
   c8_config_guards.2.2.2 roomAlice "alice"
      { roundsCount := 11, supportedCategories := ["name"],
        excludedLetters := [] } 7 (by decide) rfl rfl
      (Or.inr (Or.inl (by decide)))⟩

/-! ## C5: deterministic winner with first-joined tie-break -/

theorem head?_insertByScoreDesc (p : Player) (l : List Player) :
    (insertByScoreDesc p l).head? =
      some (match l.head? with
            | none => p
            | some q => if q.currentScore ≤ p.currentScore then p else q) := by
  cases l with
  | nil => rfl
  | cons q qs =>
    by_cases h : q.currentScore ≤ p.currentScore
    · simp [insertByScoreDesc, h]
    · simp [insertByScoreDesc, h]

theorem firstMaxPlayer_eq_none {l : List Player} :
    firstMaxPlayer l = none ↔ l = [] := by
  cases l with
  | nil => simp [firstMaxPlayer]
  | cons p ps =>
    simp only [firstMaxPlayer]
    cases firstMaxPlayer ps <;> simp

theorem head?_sortByScoreDesc (l : List Player) :
    (sortByScoreDesc l).head? = firstMaxPlayer l := by
  induction l with
  | nil => rfl
  | cons p ps ih =>
    have hrhs : firstMaxPlayer (p :: ps) =
        match firstMaxPlayer ps with
        | none => some p
        | some q => some (if p.currentScore < q.currentScore then q else p) :=
      rfl
    show (insertByScoreDesc p (sortByScoreDesc ps)).head? =
      firstMaxPlayer (p :: ps)
    rw [head?_insertByScoreDesc, ih, hrhs]
    cases firstMaxPlayer ps with
    | none => rfl
    | some q =>
      show some (if q.currentScore ≤ p.currentScore then p else q) =
        some (if p.currentScore < q.currentScore then q else p)
      by_cases h : q.currentScore ≤ p.currentScore
      · rw [if_pos h, if_neg (by omega)]
      · rw [if_neg h, if_pos (by omega)]

theorem firstMaxPlayer_spec : ∀ {l : List Player} {w : Player},
    firstMaxPlayer l = some w →
    w ∈ l ∧ ∀ p ∈ l, p.currentScore ≤ w.currentScore := by
  intro l
  induction l with
  | nil => intro w h; exact Option.noConfusion h
  | cons p ps ih =>
    intro w h
    unfold firstMaxPlayer at h
    cases hfm : firstMaxPlayer ps with
    | none =>
      rw [hfm] at h
      rw [Option.some.injEq] at h
      subst h
      have hps := firstMaxPlayer_eq_none.mp hfm
      subst hps
      refine ⟨List.mem_cons_self p [], ?_⟩
      intro x hx
      rcases List.mem_cons.1 hx with rfl | hx'
      · exact le_refl _
      · simp at hx'
    | some q =>
      rw [hfm] at h
      rw [Option.some.injEq] at h
      subst h
      obtain ⟨hqmem, hqmax⟩ := ih hfm
      by_cases hlt : p.currentScore < q.currentScore
      · rw [if_pos hlt]
        refine ⟨List.mem_cons_of_mem p hqmem, ?_⟩
        intro x hx
        rcases List.mem_cons.1 hx with rfl | hx'
        · omega
        · exact hqmax x hx'
      · rw [if_neg hlt]
        refine ⟨List.mem_cons_self p ps, ?_⟩
        intro x hx
        rcases List.mem_cons.1 hx with rfl | hx'
        · exact le_refl _
        · have := hqmax x hx'
          omega

theorem firstMaxPlayer_tiebreak : ∀ {l : List Player} {w : Player},
    List.Pairwise (fun a b => a.joinedAt < b.joinedAt) l →
    firstMaxPlayer l = some w →
    ∀ p ∈ l, p.currentScore = w.currentScore → w.joinedAt ≤ p.joinedAt := by
  intro l
  induction l with
  | nil => intro w _ h; exact Option.noConfusion h
  | cons p ps ih =>
    intro w hpw h x hx hsc
    rw [List.pairwise_cons] at hpw
    obtain ⟨hhead, htail⟩ := hpw
    unfold firstMaxPlayer at h
    cases hfm : firstMaxPlayer ps with
    | none =>
      rw [hfm] at h
      rw [Option.some.injEq] at h
      subst h
      have hps := firstMaxPlayer_eq_none.mp hfm
      subst hps
      rcases List.mem_cons.1 hx with rfl | hx'
      · exact le_refl _
      · simp at hx'
    | some q =>
      rw [hfm] at h
      rw [Option.some.injEq] at h
      subst h
      by_cases hlt : p.currentScore < q.currentScore
      · rw [if_pos hlt] at hsc ⊢
        rcases List.mem_cons.1 hx with rfl | hx'
        · omega
        · exact ih htail hfm x hx' hsc
      · rw [if_neg hlt] at hsc ⊢
        rcases List.mem_cons.1 hx with rfl | hx'
        · exact le_refl _
        · exact Nat.le_of_lt (hhead x hx')

/-- C5: when the host advances past the last round, the room finishes and
the recorded winner is a present player with maximal score; among players
with the maximal score the winner is the one with the earliest `joinedAt`
(players are listed in join order with increasing join times). -/
theorem c5_winner_first_joined (room : Room) (u : String) (now : Nat)
    (hmem : playersHas room.players u = true)
    (hhost : room.hostId = u)
    (hphase : room.phase = Phase.round_end)
    (hlast : room.rounds.length ≤ room.currentRound)
    (hjoin : List.Pairwise (fun a b => a.joinedAt < b.joinedAt) room.players) :
    ∃ r' w, nextRoundRoom room u now = Except.ok r' ∧
      r'.phase = Phase.finished ∧
      r'.winner = some (mkWinner w) ∧
      w ∈ room.players ∧
      (∀ p ∈ room.players, p.currentScore ≤ w.currentScore) ∧
      (∀ p ∈ room.players, p.currentScore = w.currentScore →
        w.joinedAt ≤ p.joinedAt) := by
  have hne : room.players ≠ [] := by
    unfold playersHas at hmem
    obtain ⟨p, hp⟩ := Option.isSome_iff_exists.mp hmem
    intro h0
    rw [h0] at hp
    exact Option.noConfusion hp
  obtain ⟨w, hw⟩ : ∃ w, firstMaxPlayer room.players = some w := by
    cases hfm : firstMaxPlayer room.players with
    | none => exact absurd (firstMaxPlayer_eq_none.mp hfm) hne
    | some w => exact ⟨w, rfl⟩
  obtain ⟨hwmem, hwmax⟩ := firstMaxPlayer_spec hw
  have h1 : nextRoundRoom room u now =
      Except.ok { room with
        phase := Phase.finished
        winner := some (mkWinner w) } := by
    unfold nextRoundRoom
    simp only [hmem, Bool.not_true, Bool.false_eq_true, if_false]
    rw [if_neg (by simp [hhost])]
    rw [if_neg (by simp [hphase])]
    rw [if_pos hlast]
    simp only [head?_sortByScoreDesc, hw]
  exact ⟨_, w, h1, rfl, rfl, hwmem, hwmax, firstMaxPlayer_tiebreak hjoin hw⟩

/-- C5 witness: the 300–300 fixture with distinct join times — the
theorem instantiated at `c5Room`. -/
theorem c5_winner_witness :
    ∃ r' w, nextRoundRoom c5Room "alice" 20 = Except.ok r' ∧
      r'.phase = Phase.finished ∧
      r'.winner = some (mkWinner w) ∧
      w ∈ c5Room.players ∧
      (∀ p ∈ c5Room.players, p.currentScore ≤ w.currentScore) ∧
      (∀ p ∈ c5Room.players, p.currentScore = w.currentScore →
        w.joinedAt ≤ p.joinedAt) :=
  c5_winner_first_joined c5Room "alice" 20 (by decide) rfl rfl (by decide)
    (by decide)

/-! ## C7: host leave reassigns the host role; last leaver destroys the
room -/

theorem playersDelete_eq_self {ps : List Player} {u : String}
    (h : u ∉ usernames ps) : playersDelete ps u = ps := by
  unfold playersDelete
  apply List.filter_eq_self.mpr
  intro p hp
  simp only [Bool.not_eq_true']
  rw [beq_eq_false_iff_ne]
  intro he
  exact h (he ▸ List.mem_map.2 ⟨p, hp, rfl⟩)

theorem length_playersDelete_of_nodup {ps : List Player} {u : String}
    (hnd : (usernames ps).Nodup) (hmem : u ∈ usernames ps) :
    (playersDelete ps u).length = ps.length - 1 := by
  induction ps with
  | nil => simp [usernames] at hmem
  | cons p rest ih =>
    simp only [usernames, List.map_cons, List.nodup_cons] at hnd
    obtain ⟨hnotin, hnd'⟩ := hnd
    by_cases hp : p.username = u
    · have hdel : playersDelete (p :: rest) u = playersDelete rest u := by
        simp [playersDelete, hp]
      rw [hdel, playersDelete_eq_self (show u ∉ usernames rest from hp ▸ hnotin)]
      simp
    · have hmem' : u ∈ usernames rest := by
        simp only [usernames, List.map_cons, List.mem_cons] at hmem
        rcases hmem with he | hm
        · exact absurd he.symm hp
        · exact hm
      have hdel : playersDelete (p :: rest) u = p :: playersDelete rest u := by
        simp [playersDelete, hp]
      rw [hdel]
      have hlen : 1 ≤ rest.length := by
        rcases List.mem_map.1 hmem' with ⟨x, hx, -⟩
        exact List.length_pos.mpr (List.ne_nil_of_mem hx)
      simp only [List.length_cons, ih hnd' hmem']
      omega

/-- C7: a host who leaves while other players remain hands the host id and
role to the first remaining player (a present player different from the
leaver); the last remaining player leaving deletes the room under both its
id key and its join-code key, after which lookups, leave, join and rejoin
all answer `NOT_FOUND`. -/
theorem c7_host_leave :
    (∀ room u now, room.hostId = u → (usernames room.players).Nodup →
        u ∈ usernames room.players → 2 ≤ room.players.length →
        ∃ r' q rest, leaveRoomRoom room u now = Except.ok (some r') ∧
          playersDelete room.players u = q :: rest ∧
          r'.hostId = q.username ∧
          q.username ≠ u ∧
          q ∈ room.players ∧
          r'.players = { q with role := Role.host } :: rest ∧
          r'.hostId ∈ usernames r'.players) ∧
    (∀ reg roomId room p now, regGetRoom reg roomId = some room →
        room.players = [p] → room.hostId = p.username →
        toUpperStr room.joinCode = room.joinCode →
        ∃ reg', leaveRoomReg reg roomId p.username now = Except.ok reg' ∧
          regGetRoom reg' roomId = none ∧
          regGetCode reg' room.joinCode = none ∧
          (∀ now2, leaveRoomReg reg' roomId p.username now2 =
            Except.error Err.NOT_FOUND) ∧
          (∀ u2 a now2, joinRoomReg reg' room.joinCode u2 a now2 =
            Except.error Err.NOT_FOUND) ∧
          (∀ u2 av now2, rejoinRoomReg reg' room.joinCode u2 av now2 =
            Except.error Err.NOT_FOUND)) := by
  constructor
  · intro room u now hhost hnd humem hcard
    obtain ⟨p, hp⟩ := Option.isSome_iff_exists.mp (playersHas_iff.mpr humem)
    cases hpd : playersDelete room.players u with
    | nil =>
      exfalso
      have := length_playersDelete_of_nodup hnd humem
      rw [hpd] at this
      simp at this
      omega
    | cons q rest =>
      have hqdel : q ∈ playersDelete room.players u := by
        rw [hpd]; exact List.mem_cons_self q rest
      have hleave : leaveRoomRoom room u now = Except.ok (some
          { room with
            players := { q with role := Role.host } :: rest
            hostId := q.username
            lastActivity := now }) := by
        unfold leaveRoomRoom
        rw [hp]
        simp only [hpd]
        rw [if_pos hhost]
      refine ⟨_, q, rest, hleave, rfl, rfl,
        username_ne_of_mem_playersDelete hqdel,
        mem_of_mem_playersDelete hqdel, rfl, ?_⟩
      simp [usernames]
  · intro reg roomId room p now hreg hp hhost hupper
    have hg : playersGet room.players p.username = some p := by
      rw [hp]
      simp [playersGet]
    have hd : playersDelete room.players p.username = [] := by
      rw [hp]
      simp [playersDelete]
    have hleave : leaveRoomRoom room p.username now = Except.ok none := by
      simp only [leaveRoomRoom, hg, hd]
      rw [if_pos hhost]
    refine ⟨regAfterDelete reg roomId room.joinCode, ?_, ?_, ?_, ?_, ?_, ?_⟩
    · simp only [leaveRoomReg, hreg, hleave]
      rfl
    · exact assocLookup_assocDel_self reg.rooms roomId
    · exact assocLookup_assocDel_self reg.codes room.joinCode
    · intro now2
      have h0 : regGetRoom (regAfterDelete reg roomId room.joinCode) roomId =
          none := assocLookup_assocDel_self reg.rooms roomId
      simp only [leaveRoomReg, h0]
    · intro u2 a now2
      have h0 : regGetCode (regAfterDelete reg roomId room.joinCode)
          room.joinCode = none := assocLookup_assocDel_self reg.codes room.joinCode
      simp only [joinRoomReg, hupper, h0]
    · intro u2 av now2
      have h0 : regGetCode (regAfterDelete reg roomId room.joinCode)
          room.joinCode = none := assocLookup_assocDel_self reg.codes room.joinCode
      simp only [rejoinRoomReg, hupper, h0]

/-- C7 witness: alice leaving the three-player fixture hands the host role
to bob; alice leaving the one-player fixture registry destroys the room. -/
theorem c7_host_leave_witness :
    (∃ r' q rest, leaveRoomRoom c7Room "alice" 9 = Except.ok (some r') ∧
        playersDelete c7Room.players "alice" = q :: rest ∧
        r'.hostId = q.username ∧
        q.username ≠ "alice" ∧
        q ∈ c7Room.players ∧
        r'.players = { q with role := Role.host } :: rest ∧
        r'.hostId ∈ usernames r'.players) ∧
    (∃ reg', leaveRoomReg regAlice "room-1" (mkHostPlayer "alice" "a" 0).username 9 =
        Except.ok reg' ∧
      regGetRoom reg' "room-1" = none ∧
      regGetCode reg' roomAlice.joinCode = none ∧
      (∀ now2, leaveRoomReg reg' "room-1" (mkHostPlayer "alice" "a" 0).username now2 =
        Except.error Err.NOT_FOUND) ∧
      (∀ u2 a now2, joinRoomReg reg' roomAlice.joinCode u2 a now2 =
        Except.error Err.NOT_FOUND) ∧
      (∀ u2 av now2, rejoinRoomReg reg' roomAlice.joinCode u2 av now2 =
        Except.error Err.NOT_FOUND)) :=
  ⟨c7_host_leave.1 c7Room "alice" 9 rfl (by decide) (by decide) (by decide),
   c7_host_leave.2 regAlice "room-1" roomAlice (mkHostPlayer "alice" "a" 0) 9
     rfl rfl rfl (by decide)⟩

/-! ## C1: round generation versus the requested round count -/

theorem selectLettersGo_eq (adm : Char → Bool) (n : Nat) :
    ∀ (l : List Char) (acc : List Char),
      selectLettersGo adm n acc l = acc ++ (l.filter adm).take (n - acc.length) := by
  intro l
  induction l with
  | nil => intro acc; simp [selectLettersGo]
  | cons c cs ih =>
    intro acc
    unfold selectLettersGo
    by_cases hn : n ≤ acc.length
    · rw [if_pos hn]
      have h0 : n - acc.length = 0 := by omega
      simp [h0]
    · rw [if_neg hn]
      by_cases hadm : adm c = true
      · rw [if_pos hadm]
        rw [ih (acc ++ [c])]
        have h1 : (c :: cs).filter adm = c :: cs.filter adm := by
          simp [List.filter_cons, hadm]
        rw [h1]
        have h2 : n - acc.length = (n - (acc ++ [c]).length) + 1 := by
          simp only [List.length_append, List.length_singleton]
          omega
        rw [h2, List.take_succ_cons]
        simp
      · rw [if_neg hadm]
        rw [ih acc]
        have h1 : (c :: cs).filter adm = cs.filter adm := by
          simp [List.filter_cons, hadm]
        rw [h1]

theorem generateRounds_letters (oracle : Oracle) (rand : Rand) (cfg : Config) :
    (generateRounds oracle rand cfg).map Round.letter =
      ((rand.shuffleLetters (alphabet.filter
          (fun c => !(cfg.excludedLetters.contains c)))).filter
        (letterAdmissible oracle cfg.supportedCategories)).take
        cfg.roundsCount.toNat := by
  simp only [generateRounds]
  rw [selectLettersGo_eq]
  simp only [List.nil_append, List.length_nil, Nat.sub_zero]
  rw [List.map_map]
  have hcomp : (Round.letter ∘ fun ic =>
      mkGeneratedRound oracle rand cfg ic.1 ic.2) = Prod.snd := by
    funext ic
    rfl
  rw [hcomp, List.enum_map_snd]

theorem generateRounds_length (oracle : Oracle) (rand : Rand) (cfg : Config) :
    (generateRounds oracle rand cfg).length =
      min cfg.roundsCount.toNat
        ((rand.shuffleLetters (alphabet.filter
            (fun c => !(cfg.excludedLetters.contains c)))).filter
          (letterAdmissible oracle cfg.supportedCategories)).length := by
  have h := congrArg List.length (generateRounds_letters oracle rand cfg)
  simpa [List.length_take] using h

theorem generateRounds_submissions (oracle : Oracle) (rand : Rand)
    (cfg : Config) : ∀ rd ∈ generateRounds oracle rand cfg,
    rd.submissions = [] := by
  intro rd hrd
  unfold generateRounds at hrd
  rcases List.mem_map.1 hrd with ⟨ic, -, he⟩
  subst he
  rfl

/-- C1 (amended): for a host call on a waiting room with a valid config and
a shuffle that permutes the candidate letters, `startGame` either fails
with `INTERNAL_SERVER_ERROR` leaving the stored room unchanged (exactly
when no admissible letter exists), or starts a game whose rounds repeat no
letter and number between 1 and `roundsCount` — exactly `roundsCount`
whenever at least `roundsCount` admissible letters remain, but possibly
fewer otherwise (the code rejects only a zero-round generation). -/
theorem c1_rounds_bound (oracle : Oracle) (rand : Rand) (room : Room)
    (u : String) (cfg : Config) (now : Nat)
    (hmem : playersHas room.players u = true)
    (hhost : room.hostId = u)
    (hphase : room.phase = Phase.waiting)
    (hlo : 1 ≤ cfg.roundsCount) (hhi : cfg.roundsCount ≤ 10)
    (hcats : cfg.supportedCategories ≠ [])
    (hperm : ∀ l, (rand.shuffleLetters l).Perm l) :
    (startGameService oracle rand room u (some cfg) now =
        Except.error Err.INTERNAL_SERVER_ERROR ∧
      commit room (startGameService oracle rand room u (some cfg) now) = room ∧
      admissibleCount oracle cfg = 0) ∨
    (∃ r', startGameService oracle rand room u (some cfg) now = Except.ok r' ∧
      r'.phase = Phase.starting ∧
      1 ≤ r'.rounds.length ∧
      r'.rounds.length ≤ cfg.roundsCount.toNat ∧
      (r'.rounds.map Round.letter).Nodup ∧
      (cfg.roundsCount.toNat ≤ admissibleCount oracle cfg →
        r'.rounds.length = cfg.roundsCount.toNat)) := by
  have hn1 : 1 ≤ cfg.roundsCount.toNat := by omega
  obtain ⟨p, hp⟩ := Option.isSome_iff_exists.mp hmem
  have hpmem : p ∈ room.players := (playersGet_some hp).1
  have hplen : 1 ≤ room.players.length :=
    List.length_pos.mpr (List.ne_nil_of_mem hpmem)
  have hred : startGameService oracle rand room u (some cfg) now =
      startGameGenerate oracle rand
        { room with
          config := cfg
          totalRounds := cfg.roundsCount } now := by
    unfold startGameService
    simp only [hmem, Bool.not_true, Bool.false_eq_true, if_false]
    rw [if_neg (by simp [hhost])]
    rw [if_neg (by simp [hphase])]
    rw [if_neg (by omega : ¬ room.players.length < 1)]
    rw [if_neg (by omega : ¬(cfg.roundsCount < 1 ∨ 10 < cfg.roundsCount))]
    rw [if_neg (by simpa [List.length_eq_zero] using hcats)]
  have hcfg : ({ room with
      config := cfg
      totalRounds := cfg.roundsCount } : Room).config = cfg := rfl
  have hcount : ((rand.shuffleLetters (alphabet.filter
        (fun c => !(cfg.excludedLetters.contains c)))).filter
      (letterAdmissible oracle cfg.supportedCategories)).length =
      admissibleCount oracle cfg :=
    ((hperm _).filter _).length_eq
  have hlen : (generateRounds oracle rand cfg).length =
      min cfg.roundsCount.toNat (admissibleCount oracle cfg) := by
    rw [generateRounds_length, hcount]
  by_cases h0 : (generateRounds oracle rand cfg).length = 0
  · left
    have herr : startGameGenerate oracle rand
        { room with
          config := cfg
          totalRounds := cfg.roundsCount } now =
        Except.error Err.INTERNAL_SERVER_ERROR := by
      unfold startGameGenerate
      rw [hcfg]
      rw [if_pos h0]
    refine ⟨by rw [hred, herr], by rw [hred, herr]; rfl, ?_⟩
    rw [hlen] at h0
    omega
  · right
    have hok : startGameGenerate oracle rand
        { room with
          config := cfg
          totalRounds := cfg.roundsCount } now =
        Except.ok { room with
          config := cfg
          totalRounds := cfg.roundsCount
          rounds := generateRounds oracle rand cfg
          currentRound := 1
          phase := Phase.starting
          startedAt := some now
          lastActivity := now } := by
      unfold startGameGenerate
      rw [hcfg]
      rw [if_neg h0]
    have hnodup : ((generateRounds oracle rand cfg).map Round.letter).Nodup := by
      rw [generateRounds_letters]
      apply List.Nodup.sublist (List.take_sublist _ _)
      apply List.Nodup.filter
      apply ((hperm _).nodup_iff).mpr
      apply List.Nodup.filter
      exact (by decide : alphabet.Nodup)
    refine ⟨_, by rw [hred, hok], rfl, ?_, ?_, hnodup, ?_⟩
    · show 1 ≤ (generateRounds oracle rand cfg).length
      omega
    · show (generateRounds oracle rand cfg).length ≤ cfg.roundsCount.toNat
      rw [hlen]
      omega
    · intro hge
      show (generateRounds oracle rand cfg).length = cfg.roundsCount.toNat
      rw [hlen]
      omega

/-- C1 witness: with every letter admissible and `roundsCount = 2`, the
theorem instantiated at the fresh fixture room. -/
theorem c1_rounds_bound_witness :
    (startGameService oracleAll randId roomAlice "alice" (some cfgTwoRounds) 5 =
        Except.error Err.INTERNAL_SERVER_ERROR ∧
      commit roomAlice (startGameService oracleAll randId roomAlice "alice"
        (some cfgTwoRounds) 5) = roomAlice ∧
      admissibleCount oracleAll cfgTwoRounds = 0) ∨
    (∃ r', startGameService oracleAll randId roomAlice "alice"
        (some cfgTwoRounds) 5 = Except.ok r' ∧
      r'.phase = Phase.starting ∧
      1 ≤ r'.rounds.length ∧
      r'.rounds.length ≤ cfgTwoRounds.roundsCount.toNat ∧
      (r'.rounds.map Round.letter).Nodup ∧
      (cfgTwoRounds.roundsCount.toNat ≤ admissibleCount oracleAll cfgTwoRounds →
        r'.rounds.length = cfgTwoRounds.roundsCount.toNat)) :=
  c1_rounds_bound oracleAll randId roomAlice "alice" cfgTwoRounds 5
    (by decide) rfl rfl (by decide) (by decide) (by decide)
    (fun l => List.Perm.refl l)

/-! ## C2: the submission-set invariant on good traces -/

theorem playersSet_ne_nil (u : String) (p : Player) (ps : List Player) :
    playersSet u p ps ≠ [] := by
  cases ps with
  | nil => simp [playersSet]
  | cons q qs =>
    unfold playersSet
    split <;> simp

theorem usernames_playersSet_not_mem {ps : List Player} {u : String}
    {p : Player} (hp : p.username = u) (h : u ∉ usernames ps) :
    usernames (playersSet u p ps) = usernames ps ++ [u] := by
  induction ps with
  | nil => simp [playersSet, usernames, hp]
  | cons q qs ih =>
    have hq : ¬(q.username = u) := by
      intro he
      apply h
      show u ∈ q.username :: usernames qs
      rw [he]
      exact List.mem_cons_self u (usernames qs)
    simp only [playersSet]
    rw [if_neg (by simpa using hq)]
    have h' : u ∉ usernames qs := fun hm =>
      h (show u ∈ q.username :: usernames qs from List.mem_cons_of_mem _ hm)
    show q.username :: usernames (playersSet u p qs) =
      (q.username :: usernames qs) ++ [u]
    rw [ih h']
    simp

theorem subsHas_false {s : List String} {u : String}
    (h : subsHas s u = false) : u ∉ s := by
  unfold subsHas at h
  simpa using h

theorem mem_listModify {f : α → α} : ∀ {n : Nat} {l : List α} {x : α},
    x ∈ listModify f n l → ∃ y ∈ l, x = f y ∨ x = y := by
  intro n l
  induction l generalizing n with
  | nil =>
    intro x hx
    cases n <;> simp [listModify] at hx
  | cons a as ih =>
    intro x hx
    cases n with
    | zero =>
      simp only [listModify, List.mem_cons] at hx
      rcases hx with rfl | hx'
      · exact ⟨a, List.mem_cons_self a as, Or.inl rfl⟩
      · exact ⟨x, List.mem_cons_of_mem a hx', Or.inr rfl⟩
    | succ n =>
      simp only [listModify, List.mem_cons] at hx
      rcases hx with rfl | hx'
      · exact ⟨x, List.mem_cons_self x as, Or.inr rfl⟩
      · rcases ih hx' with ⟨y, hy, hxy⟩
        exact ⟨y, List.mem_cons_of_mem a hy, hxy⟩

theorem roomInv_init (roomId joinCode username avatar : String) (now : Nat) :
    RoomInv (createRoomRoom roomId joinCode username avatar now) := by
  refine ⟨by simp [createRoomRoom], ?_, ?_, ?_, fun _ => rfl, ?_, ?_⟩
  · simp [createRoomRoom, usernames, mkHostPlayer]
  · simp [createRoomRoom, usernames, mkHostPlayer]
  · intro j rd hrd
    simp [createRoomRoom] at hrd
  · intro j rd hj hrd
    simp [createRoomRoom] at hrd
  · intro rd hrd
    simp [createRoomRoom] at hrd

theorem roomInv_join {room r' : Room} {u a : String} {now : Nat}
    (hinv : RoomInv room) (h : joinRoomRoom room u a now = Except.ok r') :
    RoomInv r' := by
  obtain ⟨hne, hnd, hhost, hrok, hwait, hfut, hall⟩ := hinv
  unfold joinRoomRoom at h
  split at h
  · exact Except.noConfusion h
  · split at h
    · exact Except.noConfusion h
    · rename_i hphase hfull
      rw [Except.ok.injEq] at h
      subst h
      have hw : room.phase = Phase.waiting := by
        by_contra hc
        exact hphase hc
      have hrounds : room.rounds = [] := hwait hw
      have hpu : (mkJoinPlayer u a now).username = u := rfl
      have husr : usernames (playersSet u (mkJoinPlayer u a now) room.players) =
          usernames room.players ∨
          usernames (playersSet u (mkJoinPlayer u a now) room.players) =
          usernames room.players ++ [u] := by
        by_cases hu : u ∈ usernames room.players
        · exact Or.inl (usernames_playersSet_of_mem hpu hu)
        · exact Or.inr (usernames_playersSet_not_mem hpu hu)
      refine ⟨playersSet_ne_nil u _ room.players, ?_, ?_, ?_, fun _ => hrounds,
        ?_, ?_⟩
      · show (usernames (playersSet u (mkJoinPlayer u a now)
          room.players)).Nodup
        rcases husr with he | he
        · rw [he]
          exact hnd
        · rw [he]
          have hu : u ∉ usernames room.players := by
            by_contra hu
            rw [usernames_playersSet_of_mem hpu hu] at he
            have := congrArg List.length he
            simp at this
          simp [List.nodup_append, hnd, hu]
      · show room.hostId ∈ usernames (playersSet u (mkJoinPlayer u a now)
          room.players)
        rcases husr with he | he
        · rw [he]
          exact hhost
        · rw [he]
          exact List.mem_append_left _ hhost
      · intro j rd hrd
        have h0 : room.rounds.get? j = some rd := hrd
        rw [hrounds] at h0
        simp at h0
      · intro j rd hj hrd
        have h0 : room.rounds.get? j = some rd := hrd
        rw [hrounds] at h0
        simp at h0
      · intro rd hrd
        have h0 : room.rounds.get? (room.currentRound - 1) = some rd := hrd
        rw [hrounds] at h0
        simp at h0

theorem roomInv_leave {room : Room} {u : String} {now : Nat} {r' : Room}
    (hinv : RoomInv room) (hw : room.phase = Phase.waiting)
    (h : leaveRoomRoom room u now = Except.ok (some r')) : RoomInv r' := by
  obtain ⟨hne, hnd, hhost, hrok, hwait, hfut, hall⟩ := hinv
  have hrounds : room.rounds = [] := hwait hw
  unfold leaveRoomRoom at h
  cases hg : playersGet room.players u with
  | none =>
    rw [hg] at h
    exact Except.noConfusion h
  | some p =>
    rw [hg] at h
    by_cases hh : room.hostId = u
    · rw [if_pos hh] at h
      cases hpd : playersDelete room.players u with
      | nil =>
        rw [hpd] at h
        simp at h
      | cons q rest =>
        rw [hpd] at h
        rw [Except.ok.injEq, Option.some.injEq] at h
        subst h
        have husr : usernames ({ q with role := Role.host } :: rest) =
            (usernames room.players).filter (fun s => !(s == u)) := by
          have h1 : usernames ({ q with role := Role.host } :: rest) =
              usernames (q :: rest) := by
            simp [usernames]
          rw [h1, ← hpd, usernames_playersDelete]
        refine ⟨by simp, ?_, ?_, ?_, fun _ => hrounds, ?_, ?_⟩
        · show (usernames ({ q with role := Role.host } :: rest)).Nodup
          rw [husr]
          exact List.Nodup.filter _ hnd
        · show q.username ∈ usernames ({ q with role := Role.host } :: rest)
          simp [usernames]
        · intro j rd hrd
          have h0 : room.rounds.get? j = some rd := hrd
          rw [hrounds] at h0
          simp at h0
        · intro j rd hj hrd
          have h0 : room.rounds.get? j = some rd := hrd
          rw [hrounds] at h0
          simp at h0
        · intro rd hrd
          have h0 : room.rounds.get? (room.currentRound - 1) = some rd := hrd
          rw [hrounds] at h0
          simp at h0
    · rw [if_neg hh] at h
      rw [Except.ok.injEq, Option.some.injEq] at h
      subst h
      have hhost' : room.hostId ∈ usernames (playersDelete room.players u) := by
        rw [usernames_playersDelete]
        apply List.mem_filter.2
        refine ⟨hhost, ?_⟩
        simpa using hh
      refine ⟨?_, ?_, hhost', ?_, fun _ => hrounds, ?_, ?_⟩
      · show playersDelete room.players u ≠ []
        intro h0
        rw [h0] at hhost'
        simp [usernames] at hhost'
      · show (usernames (playersDelete room.players u)).Nodup
        rw [usernames_playersDelete]
        exact List.Nodup.filter _ hnd
      · intro j rd hrd
        have h0 : room.rounds.get? j = some rd := hrd
        rw [hrounds] at h0
        simp at h0
      · intro j rd hj hrd
        have h0 : room.rounds.get? j = some rd := hrd
        rw [hrounds] at h0
        simp at h0
      · intro rd hrd
        have h0 : room.rounds.get? (room.currentRound - 1) = some rd := hrd
        rw [hrounds] at h0
        simp at h0

theorem roomInv_endGame {room : Room} {u : String} {now : Nat} {r' : Room}
    (hinv : RoomInv room) (h : endGameRoom room u now = Except.ok r') :
    RoomInv r' := by
  obtain ⟨hne, hnd, hhost, -, -, -, -⟩ := hinv
  unfold endGameRoom at h
  split at h
  · exact Except.noConfusion h
  · split at h
    · exact Except.noConfusion h
    · split at h
      · exact Except.noConfusion h
      · rw [Except.ok.injEq] at h
        subst h
        have husr : usernames (room.players.map
            (fun p => { p with currentScore := 0, answers := [] })) =
            usernames room.players := by
          unfold usernames
          rw [List.map_map]
          rfl
        refine ⟨?_, ?_, ?_, ?_, fun _ => rfl, ?_, ?_⟩
        · simp only [ne_eq, List.map_eq_nil_iff]
          exact hne
        · show (usernames (room.players.map
            (fun p => { p with currentScore := 0, answers := [] }))).Nodup
          rw [husr]
          exact hnd
        · show room.hostId ∈ usernames (room.players.map
            (fun p => { p with currentScore := 0, answers := [] }))
          rw [husr]
          exact hhost
        · intro j rd hrd
          simp at hrd
        · intro j rd hj hrd
          simp at hrd
        · intro rd hrd
          simp at hrd

theorem startGameGenerate_ok {oracle : Oracle} {rand : Rand} {room2 : Room}
    {now : Nat} {r0 : Room}
    (h : startGameGenerate oracle rand room2 now = Except.ok r0) :
    r0.players = room2.players ∧ r0.hostId = room2.hostId ∧
    r0.phase = Phase.starting ∧ r0.currentRound = 1 ∧
    (∀ rd ∈ r0.rounds, rd.submissions = []) ∧ r0.rounds ≠ [] := by
  unfold startGameGenerate at h
  split at h
  · exact Except.noConfusion h
  · rename_i hlen0
    rw [Except.ok.injEq] at h
    subst h
    refine ⟨rfl, rfl, rfl, rfl,
      generateRounds_submissions oracle rand room2.config, ?_⟩
    intro h0
    apply hlen0
    have h1 : generateRounds oracle rand room2.config = [] := h0
    rw [h1]
    rfl

set_option maxHeartbeats 1000000 in
theorem startGameService_ok_fields {oracle : Oracle} {rand : Rand}
    {room : Room} {u : String} {cfg : Option Config} {now : Nat} {r0 : Room}
    (h : startGameService oracle rand room u cfg now = Except.ok r0) :
    r0.players = room.players ∧ r0.hostId = room.hostId ∧
    r0.phase = Phase.starting ∧ r0.currentRound = 1 ∧
    (∀ rd ∈ r0.rounds, rd.submissions = []) ∧ r0.rounds ≠ [] := by
  unfold startGameService at h
  split at h
  · exact Except.noConfusion h
  · split at h
    · exact Except.noConfusion h
    · split at h
      · exact Except.noConfusion h
      · split at h
        · exact Except.noConfusion h
        · split at h
          · rename_i c
            split at h
            · exact Except.noConfusion h
            · split at h
              · exact Except.noConfusion h
              · have hx := startGameGenerate_ok h
                exact hx
          · have hx := startGameGenerate_ok h
            exact hx

theorem roomInv_start {oracle : Oracle} {rand : Rand} {room : Room}
    {u : String} {cfg : Option Config} {now : Nat} {r' : Room}
    (hinv : RoomInv room)
    (h : startGameWs oracle rand room u cfg now = Except.ok r') :
    RoomInv r' := by
  obtain ⟨hne, hnd, hhost, -, -, -, -⟩ := hinv
  unfold startGameWs at h
  cases hs : startGameService oracle rand room u cfg now with
  | error e =>
    rw [hs] at h
    exact Except.noConfusion h
  | ok r0 =>
    rw [hs] at h
    rw [Except.ok.injEq] at h
    subst h
    obtain ⟨hpl, hhid, hph, hcr, hsubs, hrne⟩ := startGameService_ok_fields hs
    have hsubs' : ∀ rd ∈ listModify
        (fun rd => { rd with startedAt := some now }) 0 r0.rounds,
        rd.submissions = [] := by
      intro rd hrd
      rcases mem_listModify hrd with ⟨y, hy, hxy⟩
      rcases hxy with h1 | h1
      · rw [h1]
        exact hsubs y hy
      · rw [h1]
        exact hsubs y hy
    have hne0 : r0.players ≠ [] := by
      rw [hpl]
      exact hne
    refine ⟨?_, ?_, ?_, ?_, ?_, ?_, ?_⟩
    · exact hne0
    · show (usernames r0.players).Nodup
      rw [hpl]
      exact hnd
    · show r0.hostId ∈ usernames r0.players
      rw [hhid, hpl]
      exact hhost
    · intro j rd hrd
      have h0 := hsubs' rd (List.get?_mem hrd)
      rw [h0]
      exact ⟨List.nodup_nil, by simp⟩
    · intro hw
      exact Phase.noConfusion hw
    · intro j rd hj hrd
      exact hsubs' rd (List.get?_mem hrd)
    · intro rd hrd h1 hlen
      have h0 := hsubs' rd (List.get?_mem hrd)
      rw [h0] at hlen
      exfalso
      have hlen0 : r0.players.length = 0 := by simpa using hlen.symm
      exact hne0 (List.length_eq_zero.mp hlen0)

theorem roomInv_next {room : Room} {u : String} {now : Nat} {r' : Room}
    (hinv : RoomInv room) (h : nextRoundRoom room u now = Except.ok r') :
    RoomInv r' := by
  obtain ⟨hne, hnd, hhost, hrok, hwait, hfut, hall⟩ := hinv
  unfold nextRoundRoom at h
  split at h
  · exact Except.noConfusion h
  · split at h
    · exact Except.noConfusion h
    · split at h
      · exact Except.noConfusion h
      · split at h
        · -- game finished
          rw [Except.ok.injEq] at h
          subst h
          refine ⟨hne, hnd, hhost, ?_, ?_, ?_, ?_⟩
          · intro j rd hj
            exact hrok j rd hj
          · intro hw
            exact Phase.noConfusion hw
          · intro j rd hj hget
            exact hfut j rd hj hget
          · intro rd hget h1 hlen
            exact Or.inr rfl
        · -- advance to the next round
          rename_i hmore
          rw [Except.ok.injEq] at h
          subst h
          refine ⟨hne, hnd, hhost, ?_, ?_, ?_, ?_⟩
          · intro j rd hj
            have hj' : (listModify (fun rd => { rd with startedAt := some now })
                room.currentRound room.rounds).get? j = some rd := hj
            rw [get?_listModify] at hj'
            by_cases hje : j = room.currentRound
            · rw [if_pos hje] at hj'
              cases hg : room.rounds.get? j with
              | none =>
                rw [hg] at hj'
                exact Option.noConfusion hj'
              | some rd0 =>
                rw [hg] at hj'
                have hj2 : ({ rd0 with startedAt := some now } : Round) = rd :=
                  Option.some.inj hj'
                subst hj2
                obtain ⟨hrok1, hrok2⟩ := hrok j rd0 hg
                exact ⟨hrok1, hrok2⟩
            · rw [if_neg hje] at hj'
              exact hrok j rd hj'
          · intro hw
            exact Phase.noConfusion hw
          · intro j rd hj hget
            have hj2 : room.currentRound + 1 ≤ j := hj
            have hget' : (listModify (fun rd => { rd with startedAt := some now })
                room.currentRound room.rounds).get? j = some rd := hget
            rw [get?_listModify, if_neg (by omega)] at hget'
            exact hfut j rd (by omega) hget'
          · intro rd hget h1 hlen
            have hget' : (listModify (fun rd => { rd with startedAt := some now })
                room.currentRound room.rounds).get?
                (room.currentRound + 1 - 1) = some rd := hget
            rw [show room.currentRound + 1 - 1 = room.currentRound from by omega]
              at hget'
            rw [get?_listModify, if_pos rfl] at hget'
            cases hg : room.rounds.get? room.currentRound with
            | none =>
              rw [hg] at hget'
              exact Option.noConfusion hget'
            | some rd0 =>
              rw [hg] at hget'
              have hg2 : ({ rd0 with startedAt := some now } : Round) = rd :=
                Option.some.inj hget'
              subst hg2
              have hempty : rd0.submissions = [] :=
                hfut room.currentRound rd0 (le_refl _) hg
              exfalso
              have hlen' : rd0.submissions.length = room.players.length := hlen
              rw [hempty] at hlen'
              have h0 : room.players.length = 0 := by simpa using hlen'.symm
              exact hne (List.length_eq_zero.mp h0)

theorem roomInv_submit {room : Room} {u : String}
    {answers : List SubmittedAnswer} {v : Option (List ValidatedAnswer)}
    {now : Nat} {r' : Room} {resp : SubmitResponse}
    (hinv : RoomInv room)
    (h : submitAnswersRoom room u answers v now = Except.ok (r', resp)) :
    RoomInv r' := by
  obtain ⟨hne, hnd, hhost, hrok, hwait, hfut, hall⟩ := hinv
  unfold submitAnswersRoom at h
  split at h
  · exact Except.noConfusion h
  split at h
  · exact Except.noConfusion h
  rename_i player hp
  split at h
  · exact Except.noConfusion h
  rename_i hphase0
  split at h
  · exact Except.noConfusion h
  rename_i hrange0
  split at h
  · exact Except.noConfusion h
  rename_i rd hrd
  split at h
  · exact Except.noConfusion h
  rename_i hdup0
  split at h
  · exact Except.noConfusion h
  rename_i vas
  split at h
  · exact Except.noConfusion h
  rename_i hlen0
  rw [Except.ok.injEq, Prod.mk.injEq] at h
  obtain ⟨hr, -⟩ := h
  subst hr
  have hpu : player.username = u := (playersGet_some hp).2
  have hpmem : player ∈ room.players := (playersGet_some hp).1
  have humem : u ∈ usernames room.players := by
    rw [← hpu]
    exact List.mem_map.2 ⟨player, hpmem, rfl⟩
  have hphase : room.phase = Phase.playing :=
    not_ne_iff.mp hphase0
  have hnotin : u ∉ rd.submissions :=
    subsHas_false (by simpa using hdup0)
  have hcr1 : 1 ≤ room.currentRound := by omega
  have hcr2 : room.currentRound ≤ room.rounds.length := by omega
  have hPu : (submitUpdatedPlayer player room.currentRound vas
    answers now).username = u := hpu
  have husr : usernames (playersSet u (submitUpdatedPlayer
      player room.currentRound vas answers now) room.players) =
      usernames room.players :=
    usernames_playersSet_of_mem hPu humem
  have hnd0 := (hrok (room.currentRound - 1) rd hrd).1
  have hsub0 := (hrok (room.currentRound - 1) rd hrd).2
  have hsubsnew : (submitUpdatedRound rd u).submissions =
      rd.submissions ++ [u] := subsSet_of_not_mem hnotin
  have hA : playersSet u (submitUpdatedPlayer player
      room.currentRound vas answers now) room.players ≠ [] :=
    playersSet_ne_nil _ _ _
  have hB : (usernames (playersSet u (submitUpdatedPlayer player
      room.currentRound vas answers now) room.players)).Nodup := by
    rw [husr]
    exact hnd
  have hC : room.hostId ∈ usernames (playersSet u
      (submitUpdatedPlayer player room.currentRound vas answers
      now) room.players) := by
    rw [husr]
    exact hhost
  have hD : ∀ j rd', (room.rounds.set (room.currentRound - 1)
      (submitUpdatedRound rd u)).get? j = some rd' →
      rd'.submissions.Nodup ∧ ∀ x ∈ rd'.submissions,
        x ∈ usernames (playersSet u (submitUpdatedPlayer player
          room.currentRound vas answers now) room.players) := by
    intro j rd' hj
    rw [set_eq_listModify, get?_listModify] at hj
    by_cases hje : j = room.currentRound - 1
    · rw [if_pos hje] at hj
      subst hje
      rw [hrd] at hj
      have he : submitUpdatedRound rd u = rd' :=
        Option.some.inj hj
      subst he
      constructor
      · rw [hsubsnew]
        simp [List.nodup_append, hnd0, hnotin]
      · intro x hx
        rw [hsubsnew] at hx
        rcases List.mem_append.1 hx with hx' | hx'
        · rw [husr]
          exact hsub0 x hx'
        · have hxu : x = u := by simpa using hx'
          subst hxu
          rw [husr]
          exact humem
    · rw [if_neg hje] at hj
      obtain ⟨h1, h2⟩ := hrok j rd' hj
      refine ⟨h1, fun x hx => ?_⟩
      rw [husr]
      exact h2 x hx
  have hF : ∀ j rd', room.currentRound ≤ j →
      (room.rounds.set (room.currentRound - 1)
        (submitUpdatedRound rd u)).get? j = some rd' →
      rd'.submissions = [] := by
    intro j rd' hj hget
    rw [set_eq_listModify, get?_listModify,
      if_neg (by omega : j ≠ room.currentRound - 1)] at hget
    exact hfut j rd' hj hget
  have hG : (room.rounds.set (room.currentRound - 1)
      (submitUpdatedRound rd u)).get? (room.currentRound - 1) =
      some (submitUpdatedRound rd u) := by
    rw [set_eq_listModify, get?_listModify, if_pos rfl, hrd]
    rfl
  unfold submitFinalRoom
  split
  · refine ⟨hA, hB, hC, ?_, ?_, ?_, ?_⟩
    · intro j rd' hj
      exact hD j rd' hj
    · intro hw
      exact Phase.noConfusion hw
    · intro j rd' hj hget
      exact hF j rd' hj hget
    · intro rd' hget h1 hlen
      exact Or.inl rfl
  · rename_i hb
    refine ⟨hA, hB, hC, ?_, ?_, ?_, ?_⟩
    · intro j rd' hj
      exact hD j rd' hj
    · intro hw
      have hw2 : room.phase = Phase.waiting := hw
      rw [hphase] at hw2
      exact Phase.noConfusion hw2
    · intro j rd' hj hget
      exact hF j rd' hj hget
    · intro rd' hget h1 hlen
      exfalso
      have hget2 : (room.rounds.set (room.currentRound - 1)
          (submitUpdatedRound rd u)).get?
          (room.currentRound - 1) = some rd' := hget
      rw [hG] at hget2
      have he : submitUpdatedRound rd u = rd' :=
        Option.some.inj hget2
      subst he
      have hne2 : ¬((submitUpdatedRoom room u player rd vas
          answers now).players.length =
          (submitUpdatedRound rd u).submissions.length) := by
        intro he2
        rw [he2] at hb
        simp at hb
      exact hne2 hlen.symm

theorem roomInv_step {room r' : Room} {op : Op} (hinv : RoomInv room)
    (hleave : leaveOnlyWaiting room op) (h : applyOp room op = some r') :
    RoomInv r' := by
  cases op with
  | join u a now =>
    have h2 : (match joinRoomRoom room u a now with
        | Except.ok r => some r
        | Except.error _ => some room) = some r' := h
    split at h2
    · rename_i r0 hj
      rw [Option.some.injEq] at h2
      subst h2
      exact roomInv_join hinv hj
    · rw [Option.some.injEq] at h2
      subst h2
      exact hinv
  | leave u now =>
    have h2 : (match leaveRoomRoom room u now with
        | Except.ok r? => r?
        | Except.error _ => some room) = some r' := h
    split at h2
    · rename_i r0 hj
      subst h2
      exact roomInv_leave hinv hleave hj
    · rw [Option.some.injEq] at h2
      subst h2
      exact hinv
  | start oracle rand u cfg now =>
    have h2 : (match startGameWs oracle rand room u cfg now with
        | Except.ok r => some r
        | Except.error _ => some room) = some r' := h
    split at h2
    · rename_i r0 hj
      rw [Option.some.injEq] at h2
      subst h2
      exact roomInv_start hinv hj
    · rw [Option.some.injEq] at h2
      subst h2
      exact hinv
  | submit u answers v now =>
    have h2 : (match submitAnswersRoom room u answers v now with
        | Except.ok rr => some rr.1
        | Except.error _ => some room) = some r' := h
    split at h2
    · rename_i rr hj
      rw [Option.some.injEq] at h2
      subst h2
      exact roomInv_submit hinv hj
    · rw [Option.some.injEq] at h2
      subst h2
      exact hinv
  | next u now =>
    have h2 : (match nextRoundRoom room u now with
        | Except.ok r => some r
        | Except.error _ => some room) = some r' := h
    split at h2
    · rename_i r0 hj
      rw [Option.some.injEq] at h2
      subst h2
      exact roomInv_next hinv hj
    · rw [Option.some.injEq] at h2
      subst h2
      exact hinv
  | endGame u now =>
    have h2 : (match endGameRoom room u now with
        | Except.ok r => some r
        | Except.error _ => some room) = some r' := h
    split at h2
    · rename_i r0 hj
      rw [Option.some.injEq] at h2
      subst h2
      exact roomInv_endGame hinv hj
    · rw [Option.some.injEq] at h2
      subst h2
      exact hinv

theorem roomInv_of_goodReach {room : Room} (h : GoodReach room) :
    RoomInv room := by
  induction h with
  | init roomId joinCode username avatar now =>
    exact roomInv_init roomId joinCode username avatar now
  | step r r' op hr hl happ ih =>
    exact roomInv_step ih hl happ

/-- C2 (amended): in every room state reachable from creation through
join / leave / start / submit / next round / end game in which players
leave only while the room is in the waiting phase, the current round's
submissions are usernames of present players, and a full submission set
forces the phase to `round_end` or `finished`, never `playing`. -/
theorem c2_subs_invariant (room : Room) (h : GoodReach room) :
    SubsInvariant room := by
  obtain ⟨-, -, -, hrok, -, -, hall⟩ := roomInv_of_goodReach h
  intro rd hrd h1
  exact ⟨(hrok _ rd hrd).2, fun hlen => hall rd hrd h1 hlen⟩

/-- C2 witness: the invariant holds in a freshly created room, through the
theorem. -/
theorem c2_subs_invariant_witness : SubsInvariant roomAlice :=
  c2_subs_invariant roomAlice
    (GoodReach.init "room-1" "ABCDEF" "alice" "a" 0)

/-- C2 counterexample: with leaves allowed in any phase, bob joins, the
game starts, alice submits and then leaves mid-round; the reached room is
still `playing`, its only submission is by alice who is no longer a
player, and the submission count equals the player count — both halves of
the claimed invariant fail. -/
theorem c2_counterexample :
    (runOps roomAlice c2CexOps).isSome = true ∧ ¬ SubsInvariant c2CexRoom := by
  constructor
  · rfl
  · decide

end WordMaster
